import Mathlib

/-! MyTodo task manager (`static/script.js`)

A shallow embedding of the `TodoApp` class of `static/script.js`: the three
fields the class keeps (`tasks`, `currentFilter`, `editingTaskId`) and its
methods as functions from a store to a `Result` (the store afterwards, the
notifications shown, the removal callbacks scheduled, whether the call threw).

What the methods read from outside the store is passed in as arguments:
* the text of an input element (`taskInput.value`, `editInput.value`);
* clock readings (`Date.now()`, `new Date().toISOString()`);
* what `document.querySelector` finds for a task's list item;
* whether `localStorage.setItem` succeeds (`saveOk`), and for `loadTasks` what
  `localStorage` holds.

The fixed elements of the page (`taskInput`, `taskList`, `emptyState`,
`taskCount`, `clearCompletedBtn`, `taskTemplate`) are taken to exist, so that
`renderTasks`, `updateTaskCount` and `updateClearCompletedButton` only write to
the page and leave the store alone.
-/

namespace Todo

/-! ## Strings -/

/-- Code points removed by `String.prototype.trim`: ECMAScript WhiteSpace
(TAB, VT, FF, ZWNBSP and the space separators) and LineTerminator
(LF, CR, LS, PS). -/
def isWhiteSpace (c : Char) : Bool :=
  [9, 10, 11, 12, 13, 32, 160, 5760, 8232, 8233, 8239, 8287, 12288, 65279].contains c.toNat
    || (8192 ≤ c.toNat && c.toNat ≤ 8202)

/-- Strip leading and trailing white space from a list of characters. -/
def trimChars (l : List Char) : List Char :=
  ((l.dropWhile isWhiteSpace).reverse.dropWhile isWhiteSpace).reverse

/-- The method `String.prototype.trim`. -/
def trim (s : String) : String := ⟨trimChars s.data⟩

/-! ## Data model -/

/-- A property holding a timestamp that may be missing (`undefined`, the
property was never written) or `null`. -/
inductive JsOpt where
  | undefined
  | null
  | str (v : String)
  deriving DecidableEq, Repr

/-- The value is `undefined` or `null`. -/
def JsOpt.isAbsent : JsOpt → Bool
  | .undefined => true
  | .null => true
  | .str _ => false

/-- One task object, as built by `addTask` (lines 168-173) and later extended
with `completedAt` (line 203) and `updatedAt` (line 284). -/
structure Task where
  id : Int
  text : String
  completed : Bool
  createdAt : String
  completedAt : JsOpt
  updatedAt : JsOpt
  deriving DecidableEq, Repr

/-- The fields of the class `TodoApp` set by its constructor (lines 7-9);
`editingTaskId` is `null` or a task id. -/
structure TodoApp where
  tasks : List Task
  currentFilter : String
  editingTaskId : Option Int
  deriving DecidableEq, Repr

/-- A call of `showNotification(message, type)`. -/
structure Notification where
  message : String
  type : String
  deriving DecidableEq, Repr

/-- What `document.querySelector` on a task id finds inside a list item:
whether it has a `.task-text` child, and the value of its `.edit-input` child
when it has one. -/
structure TaskItem where
  taskText : Bool
  editInput : Option String
  deriving DecidableEq, Repr

/-- Outcome of one method call: the store afterwards, the notifications shown
in order, the task ids for which a removal callback was handed to
`setTimeout`, and whether the call ended in an uncaught `TypeError`. -/
structure Result where
  state : TodoApp
  notifications : List Notification
  timers : List Int
  threw : Bool
  deriving DecidableEq, Repr

namespace TodoApp

/-- The store right after the constructor when nothing was saved
(lines 7-9, `loadTasks` finding no item). -/
def empty : TodoApp := ⟨[], "all", none⟩

/-- The storage key of line 10. -/
def storageKey : String := "pinnacle-todo-tasks"

/-- The part of `saveTasks` (lines 513-520) seen by the store: a failing
`localStorage.setItem` is caught and reported, the store is not touched. -/
def saveTasks (saveOk : Bool) : List Notification :=
  if saveOk then [] else [⟨"Failed to save tasks", "error"⟩]

/-- Assign through the reference returned by
`this.tasks.find(t => t.id === taskId)`: the first task with that id is
replaced by `f` of it, all others stay. -/
def mutateFound (taskId : Int) (f : Task → Task) : List Task → List Task
  | [] => []
  | t :: ts => if t.id == taskId then f t :: ts else t :: mutateFound taskId f ts

/-- The method `addTask` (lines 159-193); `input` is `taskInput.value`, `now` is
`Date.now()`, `iso` is `new Date().toISOString()`. -/
def addTask (app : TodoApp) (input : String) (now : Int) (iso : String)
    (saveOk : Bool) : Result :=
  let text := trim input
  if text = "" then
    ⟨app, [⟨"Please enter a task", "error"⟩], [], false⟩
  else
    let task : Task := ⟨now, text, false, iso, .undefined, .undefined⟩
    ⟨{ app with tasks := task :: app.tasks },
      saveTasks saveOk ++ [⟨"Task added successfully!", "success"⟩], [], false⟩

/-- The method `toggleTaskComplete` (lines 198-213). -/
def toggleTaskComplete (app : TodoApp) (taskId : Int) (iso : String)
    (saveOk : Bool) : Result :=
  match app.tasks.find? (fun t => t.id == taskId) with
  | none => ⟨app, [], [], false⟩
  | some task =>
    let completed := !task.completed
    let completedAt := if completed then JsOpt.str iso else JsOpt.null
    let flip := fun (t : Task) => { t with completed := completed, completedAt := completedAt }
    ⟨{ app with tasks := mutateFound taskId flip app.tasks },
      saveTasks saveOk ++
        [⟨if completed then "Task completed!" else "Task marked as active", "success"⟩],
      [], false⟩

/-- The method `cancelEdit` (lines 303-323): apart from restoring the list
item on the page it sets `editingTaskId` to `null`. -/
def cancelEdit (app : TodoApp) : Result :=
  if app.editingTaskId = none then ⟨app, [], [], false⟩
  else ⟨{ app with editingTaskId := none }, [], [], false⟩

/-- The method `startEdit` (lines 218-258); `taskItem` is what
`document.querySelector` returns for the id. Line 223 assigns
`editingTaskId` before line 225 dereferences `taskItem` (a `TypeError` when
it is `null`) and before the guard of line 229. -/
def startEdit (app : TodoApp) (taskId : Int) (taskItem : Option TaskItem) : Result :=
  let app1 := if app.editingTaskId ≠ none then (cancelEdit app).state else app
  let app2 := { app1 with editingTaskId := some taskId }
  match taskItem with
  | none => ⟨app2, [], [], true⟩
  | some _ => ⟨app2, [], [], false⟩

/-- The method `finishEdit` (lines 263-298); `taskItem` is what
`document.querySelector` returns for the id. -/
def finishEdit (app : TodoApp) (taskId : Int) (taskItem : Option TaskItem)
    (iso : String) (saveOk : Bool) : Result :=
  let editInput := taskItem.bind (fun item => item.editInput)
  let taskText := taskItem.map (fun item => item.taskText) == some true
  match app.tasks.find? (fun t => t.id == taskId), editInput, taskText with
  | some task, some value, true =>
    let newText := trim value
    if newText = "" then
      ⟨app, [⟨"Task text cannot be empty", "error"⟩], [], false⟩
    else if newText = task.text then
      cancelEdit app
    else
      let retext := fun (t : Task) => { t with text := newText, updatedAt := JsOpt.str iso }
      ⟨{ app with tasks := mutateFound taskId retext app.tasks, editingTaskId := none },
        saveTasks saveOk ++ [⟨"Task updated successfully!", "success"⟩], [], false⟩
  | _, _, _ => ⟨app, [], [], false⟩

/-- The callback that `deleteTask` hands to `setTimeout` (lines 338-343). -/
def deleteTaskTimeout (app : TodoApp) (taskId : Int) (saveOk : Bool) : Result :=
  ⟨{ app with tasks := app.tasks.filter (fun t => t.id != taskId) },
    saveTasks saveOk ++ [⟨"Task deleted successfully!", "success"⟩], [], false⟩

/-- The method `deleteTask` (lines 328-352); `taskElement` tells whether the
page holds a list item for the id. With one, the removal is handed to
`setTimeout` (recorded in `timers`); without, it happens at once. -/
def deleteTask (app : TodoApp) (taskId : Int) (taskElement : Bool)
    (saveOk : Bool) : Result :=
  match app.tasks.find? (fun t => t.id == taskId) with
  | none => ⟨app, [], [], false⟩
  | some _ =>
    if taskElement then
      ⟨app, [], [taskId], false⟩
    else
      ⟨{ app with tasks := app.tasks.filter (fun t => t.id != taskId) },
        saveTasks saveOk, [], false⟩

/-- The method `clearCompletedTasks` (lines 357-369). -/
def clearCompletedTasks (app : TodoApp) (saveOk : Bool) : Result :=
  let completedCount := (app.tasks.filter (fun t => t.completed)).length
  if completedCount = 0 then ⟨app, [], [], false⟩
  else
    ⟨{ app with tasks := app.tasks.filter (fun t => !t.completed) },
      saveTasks saveOk ++
        [⟨toString completedCount ++ " completed task(s) cleared!", "success"⟩],
      [], false⟩

/-- The method `setFilter` (lines 374-390). -/
def setFilter (app : TodoApp) (filter : String) : Result :=
  ⟨{ app with currentFilter := filter }, [], [], false⟩

/-- The method `getFilteredTasks` (lines 395-404). -/
def getFilteredTasks (app : TodoApp) : List Task :=
  if app.currentFilter = "active" then app.tasks.filter (fun t => !t.completed)
  else if app.currentFilter = "completed" then app.tasks.filter (fun t => t.completed)
  else app.tasks

/-- A call of `deleteTask` followed by the removal callbacks it scheduled:
the store once the deletion has been carried out. -/
def deleteTaskDone (app : TodoApp) (taskId : Int) (taskElement : Bool)
    (saveOk : Bool) : TodoApp :=
  let r := deleteTask app taskId taskElement saveOk
  r.timers.foldl (fun st tid => (deleteTaskTimeout st tid saveOk).state) r.state

end TodoApp

/-! ## The handlers of the task list

The only calls of `startEdit` in the file are in `handleTaskListClick` and
`handleTaskListKeydown` (lines 109, 135, 139). -/

/-- What a click or a key press on the task list carries: whether a
`.task-item` encloses the target, the id `parseInt` reads from it (`none` for
`NaN`), the key pressed, which buttons enclose the target, and what the
methods called read from the clock, the page and the storage. -/
structure TaskListEvent where
  inTaskItem : Bool
  taskId : Option Int
  key : String
  completeBtn : Bool
  editBtn : Bool
  deleteBtn : Bool
  iso : String
  saveOk : Bool
  taskItem : Option TaskItem
  taskElement : Bool
  saveOkDelete : Bool
  deriving DecidableEq, Repr

/-- Run the next statement on the store of an outcome, unless the call has
already ended in a `TypeError`. -/
def Result.andThen (r : Result) (next : TodoApp → Result) : Result :=
  if r.threw then r
  else
    let r2 := next r.state
    ⟨r2.state, r.notifications ++ r2.notifications, r.timers ++ r2.timers, r2.threw⟩

namespace TodoApp

/-- The method `handleTaskListClick` (lines 94-116): it returns when no task
item encloses the target (line 96) or no task has the id (line 100), then
runs its three `if` statements in turn. -/
def handleTaskListClick (app : TodoApp) (e : TaskListEvent) : Result :=
  if !e.inTaskItem then ⟨app, [], [], false⟩
  else
    match e.taskId with
    | none => ⟨app, [], [], false⟩
    | some taskId =>
      match app.tasks.find? (fun t => t.id == taskId) with
      | none => ⟨app, [], [], false⟩
      | some _ =>
        let r1 : Result :=
          if e.completeBtn then app.toggleTaskComplete taskId e.iso e.saveOk
          else ⟨app, [], [], false⟩
        let r2 := r1.andThen (fun st =>
          if e.editBtn then st.startEdit taskId e.taskItem else ⟨st, [], [], false⟩)
        r2.andThen (fun st =>
          if e.deleteBtn then st.deleteTask taskId e.taskElement e.saveOkDelete
          else ⟨st, [], [], false⟩)

/-- The method `handleTaskListKeydown` (lines 121-154), with the same two
returns (lines 123, 127) before its `switch` on the key. -/
def handleTaskListKeydown (app : TodoApp) (e : TaskListEvent) : Result :=
  if !e.inTaskItem then ⟨app, [], [], false⟩
  else
    match e.taskId with
    | none => ⟨app, [], [], false⟩
    | some taskId =>
      match app.tasks.find? (fun t => t.id == taskId) with
      | none => ⟨app, [], [], false⟩
      | some _ =>
        if e.key = "Enter" then
          if e.completeBtn then app.toggleTaskComplete taskId e.iso e.saveOk
          else if e.editBtn then app.startEdit taskId e.taskItem
          else if e.deleteBtn then app.deleteTask taskId e.taskElement e.saveOkDelete
          else app.startEdit taskId e.taskItem
        else if e.key = " " then app.toggleTaskComplete taskId e.iso e.saveOk
        else if e.key = "Delete" ∨ e.key = "Backspace" then
          if e.deleteBtn then app.deleteTask taskId e.taskElement e.saveOkDelete
          else ⟨app, [], [], false⟩
        else ⟨app, [], [], false⟩

end TodoApp

/-! ## Sequences of calls -/

/-- One call reaching the store, with what it reads from the page, the clock
and the storage. `deleteTaskTimeout` is the firing of a removal callback;
it may come at any later point, other calls in between. -/
inductive Event where
  | addTask (input : String) (now : Int) (iso : String) (saveOk : Bool)
  | toggleTaskComplete (taskId : Int) (iso : String) (saveOk : Bool)
  | startEdit (taskId : Int) (taskItem : Option TaskItem)
  | finishEdit (taskId : Int) (taskItem : Option TaskItem) (iso : String) (saveOk : Bool)
  | cancelEdit
  | deleteTask (taskId : Int) (taskElement : Bool) (saveOk : Bool)
  | deleteTaskTimeout (taskId : Int) (saveOk : Bool)
  | clearCompletedTasks (saveOk : Bool)
  | setFilter (filter : String)
  deriving DecidableEq, Repr

/-- Outcome of one event on a store. -/
def Event.apply (app : TodoApp) : Event → Result
  | .addTask input now iso saveOk => app.addTask input now iso saveOk
  | .toggleTaskComplete taskId iso saveOk => app.toggleTaskComplete taskId iso saveOk
  | .startEdit taskId taskItem => app.startEdit taskId taskItem
  | .finishEdit taskId taskItem iso saveOk => app.finishEdit taskId taskItem iso saveOk
  | .cancelEdit => app.cancelEdit
  | .deleteTask taskId taskElement saveOk => app.deleteTask taskId taskElement saveOk
  | .deleteTaskTimeout taskId saveOk => app.deleteTaskTimeout taskId saveOk
  | .clearCompletedTasks saveOk => app.clearCompletedTasks saveOk
  | .setFilter filter => app.setFilter filter

/-- The store after a sequence of events, each run to completion before the
next (an uncaught `TypeError` ends only the call that raised it). -/
def run (app : TodoApp) (events : List Event) : TodoApp :=
  events.foldl (fun st e => (e.apply st).state) app

/-- The `Date.now()` readings of the `addTask` calls of a sequence, in order. -/
def clock : List Event → List Int
  | [] => []
  | .addTask _ now _ _ :: es => now :: clock es
  | _ :: es => clock es

/-- The text is what a stored task may hold: not empty, not white space
only, and equal to its own trimmed form. -/
def validText (text : String) : Prop :=
  text ≠ "" ∧ text.data.all isWhiteSpace = false ∧ trim text = text

instance (text : String) : Decidable (validText text) := by
  unfold validText; infer_instance

/-! ## JSON text and local storage

What `saveTasks` and `loadTasks` use of the platform: `JSON.stringify` on an
array of task objects, `JSON.parse`, and `localStorage` as a map from keys to
strings. Texts are lists of Unicode characters. A number is an integer
printed in plain decimal, as `Number::toString` prints every integer below
10^21 in magnitude (every `Date.now()` reading); a fraction or an exponent in
a text to parse is not modelled and gives no value, and neither does a
`\u` escape of a surrogate. -/

/-- A value of the JSON data model. -/
inductive Json where
  | null
  | bool (b : Bool)
  | num (n : Int)
  | str (s : String)
  | arr (elems : List Json)
  | obj (members : List (String × Json))

namespace JSON

/-- JSON white space: space, tab, line feed, carriage return. -/
def isWs (c : Char) : Bool := c = ' ' || c = '\t' || c = '\n' || c = '\r'

/-- Drop leading white space. -/
def skipWs (cs : List Char) : List Char := cs.dropWhile isWs

/-- A decimal digit character. -/
def isDigit (c : Char) : Bool := 48 ≤ c.toNat && c.toNat ≤ 57

/-- The character of a decimal digit. -/
def digitChar (d : Nat) : Char := Char.ofNat (48 + d)

/-- The lower-case character of a hexadecimal digit. -/
def hexDigit (d : Nat) : Char := if d < 10 then Char.ofNat (48 + d) else Char.ofNat (87 + d)

/-- The value of a hexadecimal digit character, either case. -/
def hexVal (c : Char) : Option Nat :=
  if 48 ≤ c.toNat ∧ c.toNat ≤ 57 then some (c.toNat - 48)
  else if 97 ≤ c.toNat ∧ c.toNat ≤ 102 then some (c.toNat - 87)
  else if 65 ≤ c.toNat ∧ c.toNat ≤ 70 then some (c.toNat - 55)
  else none

/-- Decimal digits of a natural number, most significant first; `fuel` bounds
the number of digits. -/
def natToCharsAux : Nat → Nat → List Char
  | 0, _ => []
  | fuel + 1, n =>
    if n < 10 then [digitChar n] else natToCharsAux fuel (n / 10) ++ [digitChar (n % 10)]

/-- Decimal digits of a natural number. -/
def natToChars (n : Nat) : List Char := natToCharsAux (n + 1) n

/-- The text of an integer, as `Number::toString` gives it. -/
def numberToChars (n : Int) : List Char :=
  if n < 0 then '-' :: natToChars n.natAbs else natToChars n.toNat

/-- One character inside a string literal, as `QuoteJSONString` writes it. -/
def escapeChar (c : Char) : List Char :=
  if c = '"' then ['\\', '"']
  else if c = '\\' then ['\\', '\\']
  else if c = '\x08' then ['\\', 'b']
  else if c = '\x0c' then ['\\', 'f']
  else if c = '\n' then ['\\', 'n']
  else if c = '\r' then ['\\', 'r']
  else if c = '\t' then ['\\', 't']
  else if c.toNat < 32 then
    ['\\', 'u', '0', '0', hexDigit (c.toNat / 16), hexDigit (c.toNat % 16)]
  else [c]

/-- A string literal, as `QuoteJSONString` writes it. -/
def quote (s : List Char) : List Char := '"' :: s.flatMap escapeChar ++ ['"']

mutual
/-- The text `JSON.stringify` gives for a value (no indentation). -/
def stringifyChars : Json → List Char
  | .null => ['n', 'u', 'l', 'l']
  | .bool b => if b then ['t', 'r', 'u', 'e'] else ['f', 'a', 'l', 's', 'e']
  | .num n => numberToChars n
  | .str s => quote s.data
  | .arr elems => '[' :: stringifyElems elems ++ [']']
  | .obj members => '{' :: stringifyMembers members ++ ['}']
/-- The elements of an array, separated by commas. -/
def stringifyElems : List Json → List Char
  | [] => []
  | v :: vs => stringifyChars v ++ (if vs.isEmpty then [] else ',' :: stringifyElems vs)
/-- The members of an object, separated by commas. -/
def stringifyMembers : List (String × Json) → List Char
  | [] => []
  | (k, v) :: ms =>
    quote k.data ++ ':' :: stringifyChars v
      ++ (if ms.isEmpty then [] else ',' :: stringifyMembers ms)
end

/-- The function `JSON.stringify` on a value of the data model. -/
def stringify (v : Json) : String := ⟨stringifyChars v⟩

/-- The character a one-letter escape stands for. -/
def unescape (e : Char) : Option Char :=
  if e = '"' then some '"'
  else if e = '\\' then some '\\'
  else if e = '/' then some '/'
  else if e = 'b' then some '\x08'
  else if e = 'f' then some '\x0c'
  else if e = 'n' then some '\n'
  else if e = 'r' then some '\r'
  else if e = 't' then some '\t'
  else none

/-- Where the reader of a string literal stands: between characters, after a
backslash, or inside a `\u` escape with `count` of its four hexadecimal digits
read and `code` their value so far. -/
inductive StringState where
  | plain
  | escape
  | hex (count : Nat) (code : Nat)

/-- Read a string literal character by character; `acc` holds the characters
read so far, last first. -/
def parseStringAux : StringState → List Char → List Char → Option (List Char × List Char)
  | _, _, [] => none
  | .plain, acc, c :: rest =>
    if c = '"' then some (acc.reverse, rest)
    else if c = '\\' then parseStringAux .escape acc rest
    else if c.toNat < 32 then none
    else parseStringAux .plain (c :: acc) rest
  | .escape, acc, e :: rest =>
    if e = 'u' then parseStringAux (.hex 0 0) acc rest
    else
      match unescape e with
      | some ch => parseStringAux .plain (ch :: acc) rest
      | none => none
  | .hex count code, acc, h :: rest =>
    match hexVal h with
    | none => none
    | some x =>
      if count = 3 then
        if 55296 ≤ code * 16 + x ∧ code * 16 + x ≤ 57343 then none
        else parseStringAux .plain (Char.ofNat (code * 16 + x) :: acc) rest
      else parseStringAux (.hex (count + 1) (code * 16 + x)) acc rest

/-- Read a string literal after its opening quote: the characters it stands
for and the text after its closing quote. -/
def parseString (cs : List Char) : Option (List Char × List Char) :=
  parseStringAux .plain [] cs

/-- Read a run of decimal digits onto an accumulator. -/
def parseDigits : Nat → List Char → Nat × List Char
  | acc, [] => (acc, [])
  | acc, c :: rest =>
    if isDigit c then parseDigits (acc * 10 + (c.toNat - 48)) rest else (acc, c :: rest)

/-- Read the integer part of a number: a single `0`, or a run of digits that
does not start with `0`. -/
def parseNat : List Char → Option (Nat × List Char)
  | [] => none
  | c :: rest =>
    if c = '0' then some (0, rest)
    else if isDigit c then some (parseDigits (c.toNat - 48) rest)
    else none

/-- Read a number: an optional minus sign and an integer part; a fraction or
an exponent after it gives no value. -/
def parseNumber : List Char → Option (Int × List Char)
  | [] => none
  | c :: rest =>
    let signed : Option (Int × List Char) :=
      if c = '-' then
        match parseNat rest with
        | some (n, r) => some (-(n : Int), r)
        | none => none
      else
        match parseNat (c :: rest) with
        | some (n, r) => some ((n : Int), r)
        | none => none
    match signed with
    | some (n, d :: r) => if d = '.' || d = 'e' || d = 'E' then none else some (n, d :: r)
    | other => other

/-- Read the elements of a non-empty array up to its closing bracket;
`parseValue` reads one element. -/
def parseElements (parseValue : List Char → Option (Json × List Char)) :
    Nat → List Char → Option (List Json × List Char)
  | 0, _ => none
  | fuel + 1, cs =>
    match parseValue cs with
    | none => none
    | some (v, rest) =>
      match skipWs rest with
      | [] => none
      | c :: rest1 =>
        if c = ',' then
          match parseElements parseValue fuel rest1 with
          | some (vs, r) => some (v :: vs, r)
          | none => none
        else if c = ']' then some ([v], rest1)
        else none

/-- Read the members of a non-empty object up to its closing brace;
`parseValue` reads one member value. -/
def parseMembers (parseValue : List Char → Option (Json × List Char)) :
    Nat → List Char → Option (List (String × Json) × List Char)
  | 0, _ => none
  | fuel + 1, cs =>
    match skipWs cs with
    | [] => none
    | q :: rest =>
      if q = '"' then
        match parseString rest with
        | none => none
        | some (k, rest1) =>
          match skipWs rest1 with
          | [] => none
          | colon :: rest2 =>
            if colon = ':' then
              match parseValue rest2 with
              | none => none
              | some (v, rest3) =>
                match skipWs rest3 with
                | [] => none
                | c :: rest4 =>
                  if c = ',' then
                    match parseMembers parseValue fuel rest4 with
                    | some (ms, r) => some ((⟨k⟩, v) :: ms, r)
                    | none => none
                  else if c = '}' then some ([(⟨k⟩, v)], rest4)
                  else none
            else none
      else none

/-- Read one value and return it with the text after it; `fuel` bounds the
number of nested calls (the length of the text is always enough). -/
def parseValue : Nat → List Char → Option (Json × List Char)
  | 0, _ => none
  | fuel + 1, cs =>
    match skipWs cs with
    | [] => none
    | c :: rest =>
      if c = '-' || isDigit c then
        match parseNumber (c :: rest) with
        | some (n, r) => some (Json.num n, r)
        | none => none
      else if c = '"' then
        match parseString rest with
        | some (s, r) => some (Json.str ⟨s⟩, r)
        | none => none
      else if c = '[' then
        match skipWs rest with
        | [] => none
        | c1 :: rest1 =>
          if c1 = ']' then some (Json.arr [], rest1)
          else
            match parseElements (parseValue fuel) fuel (c1 :: rest1) with
            | some (vs, r) => some (Json.arr vs, r)
            | none => none
      else if c = '{' then
        match skipWs rest with
        | [] => none
        | c1 :: rest1 =>
          if c1 = '}' then some (Json.obj [], rest1)
          else
            match parseMembers (parseValue fuel) fuel (c1 :: rest1) with
            | some (ms, r) => some (Json.obj ms, r)
            | none => none
      else if c = 't' then
        match rest with
        | 'r' :: 'u' :: 'e' :: r => some (Json.bool true, r)
        | _ => none
      else if c = 'f' then
        match rest with
        | 'a' :: 'l' :: 's' :: 'e' :: r => some (Json.bool false, r)
        | _ => none
      else if c = 'n' then
        match rest with
        | 'u' :: 'l' :: 'l' :: r => some (Json.null, r)
        | _ => none
      else none

/-- The function `JSON.parse`: the value a text stands for, `none` when it
throws a `SyntaxError`. -/
def parse (s : String) : Option Json :=
  match parseValue (s.data.length + 1) s.data with
  | some (v, rest) => if skipWs rest = [] then some v else none
  | none => none

/-- The text after a printed value: at its end, or going on with a comma or
a closing bracket or brace. -/
def terminated : List Char → Bool
  | [] => true
  | c :: _ => c = ',' || c = ']' || c = '}'

end JSON

/-- The last member of an object with the given key, as property lookup on
the parsed object finds it. -/
def Json.member (members : List (String × Json)) (key : String) : Option Json :=
  (members.reverse.find? (fun m => m.1 == key)).map (fun m => m.2)

/-- The JSON value of a timestamp property that is present. -/
def JsOpt.toJson : JsOpt → Option Json
  | .undefined => none
  | .null => some Json.null
  | .str v => some (Json.str v)

/-- A timestamp property of a parsed object: missing, `null` or a string. -/
def JsOpt.ofMember : Option Json → Option JsOpt
  | none => some .undefined
  | some .null => some .null
  | some (.str v) => some (.str v)
  | some _ => none

/-- The members `JSON.stringify` writes for a named property: none when the
value is `undefined`. -/
def optionalMember (key : String) (v : JsOpt) : List (String × Json) :=
  match v.toJson with
  | none => []
  | some j => [(key, j)]

/-- A task object as a JSON value, its properties in the order they were
created: `id`, `text`, `completed`, `createdAt` (lines 168-173), then
`completedAt` and `updatedAt`, the latter first when `editedFirst` (the task
was edited before it was first toggled). Properties holding `undefined` are
left out. -/
def Task.toJson (editedFirst : Bool) (t : Task) : Json :=
  Json.obj ([("id", Json.num t.id), ("text", Json.str t.text),
      ("completed", Json.bool t.completed), ("createdAt", Json.str t.createdAt)]
    ++ (if editedFirst then
        optionalMember "updatedAt" t.updatedAt ++ optionalMember "completedAt" t.completedAt
      else
        optionalMember "completedAt" t.completedAt ++ optionalMember "updatedAt" t.updatedAt))

/-- A parsed object read as a task: the six properties looked up by name;
`none` when one holds a value a task does not hold. -/
def Task.ofJson : Json → Option Task
  | .obj members =>
    match Json.member members "id", Json.member members "text",
      Json.member members "completed", Json.member members "createdAt",
      JsOpt.ofMember (Json.member members "completedAt"),
      JsOpt.ofMember (Json.member members "updatedAt") with
    | some (.num id), some (.str text), some (.bool completed), some (.str createdAt),
      some completedAt, some updatedAt =>
      some ⟨id, text, completed, createdAt, completedAt, updatedAt⟩
    | _, _, _, _, _, _ => none
  | _ => none

/-- The elements of a parsed array read as tasks. -/
def tasksOfElems : List Json → Option (List Task)
  | [] => some []
  | v :: vs =>
    match Task.ofJson v, tasksOfElems vs with
    | some t, some ts => some (t :: ts)
    | _, _ => none

/-- A parsed value read as the `tasks` array; `none` when it is not an array
of task objects. -/
def tasksOfJson : Json → Option (List Task)
  | .arr elems => tasksOfElems elems
  | _ => none

/-- The array `this.tasks` as a JSON value; `editedFirst` gives the order of
the last two properties of each task. -/
def tasksToJson (editedFirst : Task → Bool) (tasks : List Task) : Json :=
  Json.arr (tasks.map (fun t => t.toJson (editedFirst t)))

/-- The content of `localStorage`: the string stored under each key. -/
def Storage := String → Option String

/-- The method `localStorage.getItem`. -/
def Storage.getItem (storage : Storage) (key : String) : Option String := storage key

/-- The method `localStorage.setItem` when it succeeds. -/
def Storage.setItem (storage : Storage) (key value : String) : Storage :=
  fun k => if k = key then some value else storage k

namespace TodoApp

/-- The storage after `saveTasks` (lines 513-520): the text of `tasks` under the
storage key, or the storage as it was when `setItem` throws (the error is
caught and reported, see `saveTasks`). -/
def saveTasksStorage (app : TodoApp) (editedFirst : Task → Bool) (storage : Storage)
    (saveOk : Bool) : Storage :=
  if saveOk then storage.setItem storageKey (JSON.stringify (tasksToJson editedFirst app.tasks))
  else storage

/-- The method `loadTasks` (lines 525-536); `none` when the stored text parses
to a value that is not an array of task objects, which `tasks` then holds
as it is. -/
def loadTasks (app : TodoApp) (storage : Storage) : Option Result :=
  match storage.getItem storageKey with
  | none => some ⟨app, [], [], false⟩
  | some savedTasks =>
    if savedTasks = "" then some ⟨app, [], [], false⟩
    else
      match JSON.parse savedTasks with
      | none =>
        some ⟨{ app with tasks := [] }, [⟨"Failed to load saved tasks", "error"⟩], [], false⟩
      | some value =>
        match tasksOfJson value with
        | some tasks => some ⟨{ app with tasks := tasks }, [], [], false⟩
        | none => none

end TodoApp

open TodoApp

/-! ## Facts about `trim` -/

theorem trimChars_eq_rdropWhile (l : List Char) :
    trimChars l = (l.dropWhile isWhiteSpace).rdropWhile isWhiteSpace := rfl

theorem trimChars_eq_nil_of_all (l : List Char) (h : l.all isWhiteSpace = true) :
    trimChars l = [] := by
  have hd : l.dropWhile isWhiteSpace = [] := by
    rw [List.dropWhile_eq_nil_iff]
    intro x hx
    exact (List.all_eq_true.mp h) x hx
  simp [trimChars, hd]

theorem dropWhile_self_of_initial {p : Char → Bool} {r m : List Char} (hp : r <+: m)
    (hm : m.dropWhile p = m) : r.dropWhile p = r := by
  cases r with
  | nil => rfl
  | cons a r' =>
    obtain ⟨t, rfl⟩ := hp
    have ha : ¬ p a = true := by
      have := (List.dropWhile_eq_self_iff.mp hm) (by simp)
      simpa using this
    simp [List.dropWhile_cons, ha]

theorem dropWhile_trimChars (l : List Char) :
    (trimChars l).dropWhile isWhiteSpace = trimChars l := by
  rw [trimChars_eq_rdropWhile]
  have hinit := List.rdropWhile_prefix isWhiteSpace (l.dropWhile isWhiteSpace)
  exact dropWhile_self_of_initial hinit (List.dropWhile_idempotent _ _)

theorem trimChars_idem (l : List Char) : trimChars (trimChars l) = trimChars l := by
  conv_lhs => rw [trimChars_eq_rdropWhile, dropWhile_trimChars]
  rw [trimChars_eq_rdropWhile]
  exact List.rdropWhile_idempotent _ _

theorem trimChars_all_false (l : List Char) (h : trimChars l ≠ []) :
    (trimChars l).all isWhiteSpace = false := by
  have hd := dropWhile_trimChars l
  cases hr : trimChars l with
  | nil => exact absurd hr h
  | cons a r =>
    rw [hr] at hd
    have ha : ¬ isWhiteSpace a = true := by
      have := (List.dropWhile_eq_self_iff.mp hd) (by simp)
      simpa using this
    simp [List.all_cons, ha]

theorem trim_eq_empty_of_all (s : String) (h : s.data.all isWhiteSpace = true) :
    trim s = "" := by
  simp [trim, trimChars_eq_nil_of_all s.data h]

theorem trim_idem (s : String) : trim (trim s) = trim s := by
  simp [trim, trimChars_idem]

theorem validText_trim (s : String) (h : trim s ≠ "") : validText (trim s) := by
  refine ⟨h, ?_, trim_idem s⟩
  apply trimChars_all_false
  intro hnil
  apply h
  simp [trim, hnil]

/-! ## `addTask` -/

/-- C1: for every store and every input whose trimmed form is not empty,
`addTask` leaves `tasks` equal to one new task followed by the previous tasks
in their order, so the length grows by exactly one; the new task sits at
index 0, its text is the trimmed input and it is not completed. -/
theorem addTask_prepends (app : TodoApp) (input : String) (now : Int) (iso : String)
    (saveOk : Bool) (h : trim input ≠ "") :
    (app.addTask input now iso saveOk).state.tasks
        = ⟨now, trim input, false, iso, .undefined, .undefined⟩ :: app.tasks
      ∧ (app.addTask input now iso saveOk).state.tasks.length = app.tasks.length + 1
      ∧ ∃ task, (app.addTask input now iso saveOk).state.tasks[0]? = some task
          ∧ task.text = trim input ∧ task.completed = false := by
  simp [addTask, h]

theorem addTask_prepends_witness :
    (TodoApp.empty.addTask "  Buy milk " 1700000000000 "2023-11-14T22:13:20.000Z" true).state.tasks
        = ⟨1700000000000, trim "  Buy milk ", false, "2023-11-14T22:13:20.000Z",
            .undefined, .undefined⟩ :: TodoApp.empty.tasks
      ∧ (TodoApp.empty.addTask "  Buy milk " 1700000000000 "2023-11-14T22:13:20.000Z"
          true).state.tasks.length = TodoApp.empty.tasks.length + 1
      ∧ ∃ task, (TodoApp.empty.addTask "  Buy milk " 1700000000000 "2023-11-14T22:13:20.000Z"
          true).state.tasks[0]? = some task
          ∧ task.text = trim "  Buy milk " ∧ task.completed = false :=
  addTask_prepends TodoApp.empty "  Buy milk " 1700000000000 "2023-11-14T22:13:20.000Z" true
    (by decide)

/-- C2: for every store and every input that is empty or white space only,
`addTask` leaves `tasks`, `currentFilter` and `editingTaskId` as they were and
shows the validation error, and no success notification. -/
theorem addTask_rejects_blank (app : TodoApp) (input : String) (now : Int) (iso : String)
    (saveOk : Bool) (h : input.data.all isWhiteSpace = true) :
    (app.addTask input now iso saveOk).state.tasks = app.tasks
      ∧ (app.addTask input now iso saveOk).state.currentFilter = app.currentFilter
      ∧ (app.addTask input now iso saveOk).state.editingTaskId = app.editingTaskId
      ∧ (app.addTask input now iso saveOk).notifications = [⟨"Please enter a task", "error"⟩]
      ∧ (app.addTask input now iso saveOk).notifications.all
          (fun n => n.type != "success") = true := by
  have ht := trim_eq_empty_of_all input h
  simp [addTask, ht]

theorem addTask_rejects_blank_witness :
    ("   ".data.all isWhiteSpace = true
        ∧ ((TodoApp.mk [⟨7, "Walk dog", false, "T7", .undefined, .undefined⟩] "active"
            (some 7)).addTask "   " 9 "T9" true).state.tasks
          = [⟨7, "Walk dog", false, "T7", .undefined, .undefined⟩]
        ∧ ((TodoApp.mk [⟨7, "Walk dog", false, "T7", .undefined, .undefined⟩] "active"
            (some 7)).addTask "   " 9 "T9" true).notifications
          = [⟨"Please enter a task", "error"⟩])
      ∧ ("".data.all isWhiteSpace = true
        ∧ (TodoApp.empty.addTask "" 9 "T9" true).state.tasks = []
        ∧ (TodoApp.empty.addTask "" 9 "T9" true).notifications
          = [⟨"Please enter a task", "error"⟩]) :=
  ⟨⟨by decide,
      (addTask_rejects_blank ⟨[⟨7, "Walk dog", false, "T7", .undefined, .undefined⟩], "active",
        some 7⟩ "   " 9 "T9" true (by decide)).1,
      (addTask_rejects_blank ⟨[⟨7, "Walk dog", false, "T7", .undefined, .undefined⟩], "active",
        some 7⟩ "   " 9 "T9" true (by decide)).2.2.2.1⟩,
    ⟨by decide, (addTask_rejects_blank TodoApp.empty "" 9 "T9" true (by decide)).1,
      (addTask_rejects_blank TodoApp.empty "" 9 "T9" true (by decide)).2.2.2.1⟩⟩

/-! ## `toggleTaskComplete` -/

theorem find?_first (taskId : Int) (pre post : List Task) (t : Task)
    (hid : t.id = taskId) (hfirst : ∀ u ∈ pre, u.id ≠ taskId) :
    (pre ++ t :: post).find? (fun u => u.id == taskId) = some t := by
  induction pre with
  | nil => simp [hid]
  | cons a pre ih =>
    have ha : a.id ≠ taskId := hfirst a (by simp)
    have ih := ih (fun u hu => hfirst u (by simp [hu]))
    simp [List.find?_cons, ha, ih]

theorem mutateFound_first (taskId : Int) (f : Task → Task) (pre post : List Task) (t : Task)
    (hid : t.id = taskId) (hfirst : ∀ u ∈ pre, u.id ≠ taskId) :
    mutateFound taskId f (pre ++ t :: post) = pre ++ f t :: post := by
  induction pre with
  | nil => simp [mutateFound, hid]
  | cons a pre ih =>
    have ha : a.id ≠ taskId := hfirst a (by simp)
    have ih := ih (fun u hu => hfirst u (by simp [hu]))
    simp [mutateFound, ha, ih]

/-- One call of `toggleTaskComplete` on the id of the task `find` returns. -/
theorem toggleTaskComplete_first (app : TodoApp) (pre post : List Task) (t : Task)
    (iso : String) (saveOk : Bool) (htasks : app.tasks = pre ++ t :: post)
    (hfirst : ∀ u ∈ pre, u.id ≠ t.id) :
    (app.toggleTaskComplete t.id iso saveOk).state
      = { app with tasks := pre ++ { t with
            completed := !t.completed,
            completedAt := if t.completed then JsOpt.null else JsOpt.str iso } :: post } := by
  simp only [toggleTaskComplete, htasks, find?_first t.id pre post t rfl hfirst,
    mutateFound_first t.id _ pre post t rfl hfirst]
  cases t.completed <;> simp

/-- C3, as the code has it: for a task `t` that is the first of `tasks` with
its id, two calls of `toggleTaskComplete(t.id)` in a row return `t.completed`
to its first value and leave every other task, the order, the filter and
the edit state as they were; `t.completedAt` ends `null` when `t` began not
completed, and holds the timestamp of the second call when `t` began
completed. -/
theorem toggleTaskComplete_twice (app : TodoApp) (pre post : List Task) (t : Task)
    (iso1 iso2 : String) (saveOk1 saveOk2 : Bool) (htasks : app.tasks = pre ++ t :: post)
    (hfirst : ∀ u ∈ pre, u.id ≠ t.id) :
    ((app.toggleTaskComplete t.id iso1 saveOk1).state.toggleTaskComplete t.id iso2 saveOk2).state
      = { app with tasks := pre ++ { t with
            completedAt := if t.completed then JsOpt.str iso2 else JsOpt.null } :: post } := by
  rw [toggleTaskComplete_first app pre post t iso1 saveOk1 htasks hfirst]
  have h2 := toggleTaskComplete_first
    { app with tasks := pre ++ { t with
        completed := !t.completed,
        completedAt := if t.completed then JsOpt.null else JsOpt.str iso1 } :: post }
    pre post { t with
        completed := !t.completed,
        completedAt := if t.completed then JsOpt.null else JsOpt.str iso1 } iso2 saveOk2 rfl hfirst
  simp only [] at h2
  rw [h2]
  cases t.completed <;> simp

theorem toggleTaskComplete_twice_witness :
    (∀ u ∈ [(⟨2, "Walk dog", false, "T2", .undefined, .undefined⟩ : Task)], u.id ≠ 1)
      ∧ (((TodoApp.mk [⟨2, "Walk dog", false, "T2", .undefined, .undefined⟩,
            ⟨1, "Buy milk", true, "T1", .str "T3", .undefined⟩] "all" none).toggleTaskComplete
          1 "T4" true).state.toggleTaskComplete 1 "T5" false).state
        = ⟨[⟨2, "Walk dog", false, "T2", .undefined, .undefined⟩,
            ⟨1, "Buy milk", true, "T1", .str "T5", .undefined⟩], "all", none⟩ :=
  ⟨by decide,
    toggleTaskComplete_twice
      ⟨[⟨2, "Walk dog", false, "T2", .undefined, .undefined⟩,
        ⟨1, "Buy milk", true, "T1", .str "T3", .undefined⟩], "all", none⟩
      [⟨2, "Walk dog", false, "T2", .undefined, .undefined⟩] []
      ⟨1, "Buy milk", true, "T1", .str "T3", .undefined⟩ "T4" "T5" true false rfl (by decide)⟩

/-- C3 as stated fails on a task that begins completed: after the second
call it is completed again and `completedAt` is that call's timestamp, not
absent. Here the store is the one reached by adding "Buy milk" and
completing it. With two tasks of one id (added in the same millisecond) the
calls reach the first of them, for any `t` of that id. -/
theorem toggleTaskComplete_twice_counterexample :
    (run TodoApp.empty [.addTask "Buy milk" 1 "T1" true, .toggleTaskComplete 1 "T2" true]).tasks
        = [⟨1, "Buy milk", true, "T1", .str "T2", .undefined⟩]
      ∧ (run TodoApp.empty [.addTask "Buy milk" 1 "T1" true, .toggleTaskComplete 1 "T2" true,
          .toggleTaskComplete 1 "T3" true, .toggleTaskComplete 1 "T4" true]).tasks
        = [⟨1, "Buy milk", true, "T1", .str "T4", .undefined⟩]
      ∧ (JsOpt.str "T4").isAbsent = false
      ∧ ((TodoApp.mk [⟨1, "Walk dog", true, "T1", .str "T2", .undefined⟩,
            ⟨1, "Buy milk", false, "T1", .undefined, .undefined⟩] "all" none).toggleTaskComplete
          1 "T3" true).state.toggleTaskComplete 1 "T4" true
        = ⟨⟨[⟨1, "Walk dog", true, "T1", .str "T4", .undefined⟩,
            ⟨1, "Buy milk", false, "T1", .undefined, .undefined⟩], "all", none⟩,
          [⟨"Task completed!", "success"⟩], [], false⟩ := by
  decide

/-! ## `deleteTask` -/

theorem filter_ne_eq_self_of_find?_none (taskId : Int) (tasks : List Task)
    (h : tasks.find? (fun t => t.id == taskId) = none) :
    tasks.filter (fun t => t.id != taskId) = tasks := by
  rw [List.filter_eq_self]
  intro a ha
  have := (List.find?_eq_none.mp h) a ha
  simpa using this

theorem deleteTaskDone_eq (app : TodoApp) (taskId : Int) (taskElement saveOk : Bool) :
    app.deleteTaskDone taskId taskElement saveOk
      = { app with tasks := app.tasks.filter (fun t => t.id != taskId) } := by
  unfold deleteTaskDone deleteTask
  cases hfind : app.tasks.find? (fun t => t.id == taskId) with
  | none => simp [filter_ne_eq_self_of_find?_none taskId app.tasks hfind]
  | some t => cases taskElement <;> simp [deleteTaskTimeout]

/-- C4: for every store and every id, a completed `deleteTask(id)` (the call
itself when no list item is on the page, else the call and the removal
callback it hands to `setTimeout`) leaves `tasks` equal to the previous tasks
whose id differs, in their order, so unchanged when no task has the id; a
second `deleteTask(id)` changes nothing further. Both the branch that removes
at once and the callback remove exactly the tasks with the id. -/
theorem deleteTask_removes (app : TodoApp) (taskId : Int) (taskElement saveOk : Bool)
    (taskElement2 saveOk2 : Bool) :
    (app.deleteTaskDone taskId taskElement saveOk).tasks
        = app.tasks.filter (fun t => t.id != taskId)
      ∧ ((∀ t ∈ app.tasks, t.id ≠ taskId) →
          app.deleteTaskDone taskId taskElement saveOk = app
            ∧ app.deleteTask taskId taskElement saveOk = ⟨app, [], [], false⟩)
      ∧ (app.deleteTaskDone taskId taskElement saveOk).deleteTaskDone taskId taskElement2 saveOk2
          = app.deleteTaskDone taskId taskElement saveOk
      ∧ (app.deleteTask taskId false saveOk).state.tasks
          = app.tasks.filter (fun t => t.id != taskId)
      ∧ (app.deleteTaskTimeout taskId saveOk).state.tasks
          = app.tasks.filter (fun t => t.id != taskId) := by
  refine ⟨by rw [deleteTaskDone_eq], ?_, ?_, ?_, by simp [deleteTaskTimeout]⟩
  · intro h
    have hfind : app.tasks.find? (fun t => t.id == taskId) = none := by
      rw [List.find?_eq_none]
      intro x hx
      simpa using h x hx
    constructor
    · rw [deleteTaskDone_eq, filter_ne_eq_self_of_find?_none taskId app.tasks hfind]
    · simp [deleteTask, hfind]
  · rw [deleteTaskDone_eq, deleteTaskDone_eq]
    simp [List.filter_filter]
  · unfold deleteTask
    cases hfind : app.tasks.find? (fun t => t.id == taskId) with
    | none => simp [filter_ne_eq_self_of_find?_none taskId app.tasks hfind]
    | some t => simp

/-- C5, as the code has it: when `editingTaskId` is the id of a task of
`tasks`, a completed `deleteTask(id)` removes every task with that id and
leaves `editingTaskId` as it was, still that id; `clearCompletedTasks` does
not write `editingTaskId` either. -/
theorem deleteTask_keeps_editingTaskId (app : TodoApp) (taskId : Int)
    (taskElement saveOk : Bool) (hedit : app.editingTaskId = some taskId)
    (hmem : ∃ t ∈ app.tasks, t.id = taskId) :
    (app.deleteTaskDone taskId taskElement saveOk).editingTaskId = some taskId
      ∧ (∀ t ∈ (app.deleteTaskDone taskId taskElement saveOk).tasks, t.id ≠ taskId)
      ∧ (app.deleteTaskDone taskId taskElement saveOk).tasks.length < app.tasks.length
      ∧ (app.clearCompletedTasks saveOk).state.editingTaskId = some taskId := by
  rw [deleteTaskDone_eq]
  refine ⟨hedit, ?_, ?_, ?_⟩
  · intro t ht
    simp only [List.mem_filter] at ht
    simpa using ht.2
  · obtain ⟨t, ht, hid⟩ := hmem
    apply List.length_filter_lt_length_iff_exists.mpr
    exact ⟨t, ht, by simp [hid]⟩
  · by_cases hk : (app.tasks.filter (fun t => t.completed)).length = 0 <;>
      simp [clearCompletedTasks, hk, hedit]

theorem deleteTask_keeps_editingTaskId_witness :
    (TodoApp.mk [⟨1, "Buy milk", false, "T1", .undefined, .undefined⟩] "all" (some 1)).editingTaskId
        = some 1
      ∧ ((TodoApp.mk [⟨1, "Buy milk", false, "T1", .undefined, .undefined⟩] "all"
          (some 1)).deleteTaskDone 1 true true).editingTaskId = some 1
      ∧ (∀ t ∈ ((TodoApp.mk [⟨1, "Buy milk", false, "T1", .undefined, .undefined⟩] "all"
          (some 1)).deleteTaskDone 1 true true).tasks, t.id ≠ 1) :=
  ⟨rfl,
    (deleteTask_keeps_editingTaskId
      ⟨[⟨1, "Buy milk", false, "T1", .undefined, .undefined⟩], "all", some 1⟩ 1 true true rfl
      ⟨⟨1, "Buy milk", false, "T1", .undefined, .undefined⟩, by decide, rfl⟩).1,
    (deleteTask_keeps_editingTaskId
      ⟨[⟨1, "Buy milk", false, "T1", .undefined, .undefined⟩], "all", some 1⟩ 1 true true rfl
      ⟨⟨1, "Buy milk", false, "T1", .undefined, .undefined⟩, by decide, rfl⟩).2.1⟩

/-- C5 as stated fails: add "Buy milk", start editing it, delete it (the list
item is on the page, so the removal runs in the callback). Before the
deletion the store is in state Editing(1); afterwards `tasks` is empty and
`editingTaskId` is still 1, not `null`, the id of no task. The same holds
when the removal runs at once. -/
theorem deleteTask_editing_counterexample :
    run TodoApp.empty [.addTask "Buy milk" 1 "T1" true,
          .startEdit 1 (some ⟨true, some "Buy milk"⟩)]
        = ⟨[⟨1, "Buy milk", false, "T1", .undefined, .undefined⟩], "all", some 1⟩
      ∧ run TodoApp.empty [.addTask "Buy milk" 1 "T1" true,
          .startEdit 1 (some ⟨true, some "Buy milk"⟩),
          .deleteTask 1 true true, .deleteTaskTimeout 1 true]
        = ⟨[], "all", some 1⟩
      ∧ run TodoApp.empty [.addTask "Buy milk" 1 "T1" true,
          .startEdit 1 (some ⟨true, some "Buy milk"⟩), .deleteTask 1 false true]
        = ⟨[], "all", some 1⟩ := by
  decide

/-! ## `startEdit` -/

/-- C6 as stated fails: `startEdit` writes `editingTaskId` (line 223) before
it looks the task up (line 227) and before its guard (line 229). On the empty
store `startEdit(42)` leaves `editingTaskId = 42` and ends in a `TypeError`
(no list item to dereference); with task 1 being edited, `startEdit(99)`
cancels that edit and leaves `editingTaskId = 99`, also when a list item is
found. -/
theorem startEdit_unknown_id_sets_editingTaskId :
    TodoApp.empty.startEdit 42 none = ⟨⟨[], "all", some 42⟩, [], [], true⟩
      ∧ (TodoApp.mk [⟨1, "Buy milk", false, "T1", .undefined, .undefined⟩] "all"
          (some 1)).startEdit 99 none
        = ⟨⟨[⟨1, "Buy milk", false, "T1", .undefined, .undefined⟩], "all", some 99⟩, [], [], true⟩
      ∧ ((TodoApp.mk [⟨1, "Buy milk", false, "T1", .undefined, .undefined⟩] "all"
          (some 1)).startEdit 99 (some ⟨true, some ""⟩)).state.editingTaskId = some 99 := by
  decide

theorem startEdit_state (app : TodoApp) (taskId : Int) (taskItem : Option TaskItem) :
    (app.startEdit taskId taskItem).state = { app with editingTaskId := some taskId } := by
  cases taskItem <;> simp only [startEdit, cancelEdit] <;> split <;> simp_all

/-- C6, as the code has it: an id that matches no task is stopped by the
callers of `startEdit`, not by `startEdit`. For every store and every id that
matches no task, a click or a key press on the task list carrying that id
(`handleTaskListClick`, `handleTaskListKeydown`, whatever the button, the key
and the page) returns at its own guard: `tasks`, `currentFilter` and
`editingTaskId` keep their values, nothing is shown or scheduled and nothing
is thrown. `startEdit` called with the id sets `editingTaskId` to it and
leaves `tasks` and `currentFilter` as they were. -/
theorem startEdit_unknown_id_guarded (app : TodoApp) (taskId : Int) (e : TaskListEvent)
    (hid : ∀ t ∈ app.tasks, t.id ≠ taskId) :
    app.handleTaskListClick { e with taskId := some taskId } = ⟨app, [], [], false⟩
      ∧ app.handleTaskListKeydown { e with taskId := some taskId } = ⟨app, [], [], false⟩
      ∧ ∀ taskItem : Option TaskItem,
          (app.startEdit taskId taskItem).state = { app with editingTaskId := some taskId } := by
  have hfind : app.tasks.find? (fun t => t.id == taskId) = none := by
    rw [List.find?_eq_none]
    intro x hx
    simpa using hid x hx
  refine ⟨?_, ?_, fun taskItem => startEdit_state app taskId taskItem⟩
  · simp only [handleTaskListClick, hfind]
    split <;> rfl
  · simp only [handleTaskListKeydown, hfind]
    split <;> rfl

theorem startEdit_unknown_id_guarded_witness :
    (∀ t ∈ (TodoApp.mk [⟨1, "Buy milk", false, "T1", .undefined, .undefined⟩] "all"
        (some 1)).tasks, t.id ≠ 99)
      ∧ (TodoApp.mk [⟨1, "Buy milk", false, "T1", .undefined, .undefined⟩] "all"
          (some 1)).handleTaskListClick
            ⟨true, some 99, "", false, true, false, "T2", true, none, false, true⟩
        = ⟨⟨[⟨1, "Buy milk", false, "T1", .undefined, .undefined⟩], "all", some 1⟩, [], [], false⟩
      ∧ (TodoApp.mk [⟨1, "Buy milk", false, "T1", .undefined, .undefined⟩] "all"
          (some 1)).handleTaskListKeydown
            ⟨true, some 99, "Enter", false, false, false, "T2", true, none, false, true⟩
        = ⟨⟨[⟨1, "Buy milk", false, "T1", .undefined, .undefined⟩], "all", some 1⟩, [], [], false⟩ :=
  ⟨by decide,
    (startEdit_unknown_id_guarded
      ⟨[⟨1, "Buy milk", false, "T1", .undefined, .undefined⟩], "all", some 1⟩ 99
      ⟨true, some 99, "", false, true, false, "T2", true, none, false, true⟩ (by decide)).1,
    (startEdit_unknown_id_guarded
      ⟨[⟨1, "Buy milk", false, "T1", .undefined, .undefined⟩], "all", some 1⟩ 99
      ⟨true, some 99, "Enter", false, false, false, "T2", true, none, false, true⟩
      (by decide)).2.1⟩

/-! ## `clearCompletedTasks` -/

/-- C7: with `k` completed tasks, `clearCompletedTasks` leaves `tasks` equal to
the previous tasks that are not completed, in their order, which removes
exactly `k` tasks, and its last notification reports `k`; when `k = 0` the
store is unchanged and no notification is shown. -/
theorem clearCompletedTasks_removes (app : TodoApp) (saveOk : Bool) :
    (app.clearCompletedTasks saveOk).state.tasks = app.tasks.filter (fun t => !t.completed)
      ∧ (app.clearCompletedTasks saveOk).state.tasks.length
          + (app.tasks.filter (fun t => t.completed)).length = app.tasks.length
      ∧ (app.clearCompletedTasks saveOk).notifications
          = (if (app.tasks.filter (fun t => t.completed)).length = 0 then []
            else saveTasks saveOk ++
              [⟨toString (app.tasks.filter (fun t => t.completed)).length
                  ++ " completed task(s) cleared!", "success"⟩])
      ∧ ((app.tasks.filter (fun t => t.completed)).length = 0 →
          (app.clearCompletedTasks saveOk).state = app) := by
  have htasks : (app.clearCompletedTasks saveOk).state.tasks
      = app.tasks.filter (fun t => !t.completed) := by
    unfold clearCompletedTasks
    by_cases hk : (app.tasks.filter (fun t => t.completed)).length = 0
    · have hnone : ∀ a ∈ app.tasks, ¬ a.completed = true := by
        have := List.length_eq_zero.mp hk
        simpa [List.filter_eq_nil_iff] using this
      have : app.tasks.filter (fun t => !t.completed) = app.tasks := by
        rw [List.filter_eq_self]
        intro a ha
        simpa using hnone a ha
      simp [hk, this]
    · simp [hk]
  refine ⟨htasks, ?_, ?_, ?_⟩
  · rw [htasks]
    have := List.length_eq_length_filter_add (l := app.tasks) (fun t => t.completed)
    omega
  · by_cases hk : (app.tasks.filter (fun t => t.completed)).length = 0
    · simp only [clearCompletedTasks, hk, if_true]
    · simp only [clearCompletedTasks, hk, if_false]
  · intro hk
    simp [clearCompletedTasks, hk]

/-! ## `getFilteredTasks` -/

/-- C8: `getFilteredTasks` computes a list from the store and writes nothing;
the list is a subsequence of `tasks` in store order: under the filter
`active` the tasks that are not completed, under `completed` the completed
ones, under `all` the whole of `tasks`. -/
theorem getFilteredTasks_view (app : TodoApp) :
    (app.getFilteredTasks).Sublist app.tasks
      ∧ getFilteredTasks { app with currentFilter := "active" }
          = app.tasks.filter (fun t => !t.completed)
      ∧ getFilteredTasks { app with currentFilter := "completed" }
          = app.tasks.filter (fun t => t.completed)
      ∧ getFilteredTasks { app with currentFilter := "all" } = app.tasks
      ∧ (∀ t, t ∈ getFilteredTasks { app with currentFilter := "active" }
          ↔ t ∈ app.tasks ∧ t.completed = false)
      ∧ (∀ t, t ∈ getFilteredTasks { app with currentFilter := "completed" }
          ↔ t ∈ app.tasks ∧ t.completed = true) := by
  have hall : getFilteredTasks { app with currentFilter := "all" } = app.tasks := by
    simp only [getFilteredTasks]
    rw [if_neg (show ¬ ("all" : String) = "active" by decide),
      if_neg (show ¬ ("all" : String) = "completed" by decide)]
  refine ⟨?_, by simp [getFilteredTasks], by simp [getFilteredTasks], hall, ?_, ?_⟩
  · unfold getFilteredTasks
    split
    · exact List.filter_sublist _
    · split
      · exact List.filter_sublist _
      · exact List.Sublist.refl _
  · intro t
    simp [getFilteredTasks, List.mem_filter]
  · intro t
    simp [getFilteredTasks, List.mem_filter]

/-! ## Invariants of reachable stores -/

theorem mutateFound_map_id (taskId : Int) (f : Task → Task) (hid : ∀ t, (f t).id = t.id)
    (tasks : List Task) :
    (mutateFound taskId f tasks).map (fun t => t.id) = tasks.map (fun t => t.id) := by
  induction tasks with
  | nil => rfl
  | cons a tasks ih =>
    unfold mutateFound
    split
    · simp [hid]
    · simp [ih]

theorem mem_mutateFound (taskId : Int) (f : Task → Task) (tasks : List Task) (u : Task)
    (hu : u ∈ mutateFound taskId f tasks) : u ∈ tasks ∨ ∃ t ∈ tasks, u = f t := by
  induction tasks with
  | nil => simp [mutateFound] at hu
  | cons a tasks ih =>
    unfold mutateFound at hu
    split at hu
    · rcases List.mem_cons.mp hu with h | h
      · exact Or.inr ⟨a, by simp, h⟩
      · exact Or.inl (by simp [h])
    · rcases List.mem_cons.mp hu with h | h
      · exact Or.inl (by simp [h])
      · rcases ih h with h' | ⟨t, ht, hft⟩
        · exact Or.inl (by simp [h'])
        · exact Or.inr ⟨t, by simp [ht], hft⟩

theorem cancelEdit_tasks (app : TodoApp) : (app.cancelEdit).state.tasks = app.tasks := by
  unfold cancelEdit
  split <;> rfl

/-- What one event does to `tasks`: nothing, a filter, an assignment to
fields other than `id` of the task `find` returns (the text kept or set to a
valid one), or a new task in front. -/
theorem apply_tasks_shape (app : TodoApp) (e : Event) :
    (e.apply app).state.tasks = app.tasks
      ∨ (∃ p, (e.apply app).state.tasks = app.tasks.filter p)
      ∨ (∃ taskId f, (e.apply app).state.tasks = mutateFound taskId f app.tasks
          ∧ ∀ t, (f t).id = t.id ∧ ((f t).text = t.text ∨ validText (f t).text))
      ∨ (∃ input now iso saveOk, e = .addTask input now iso saveOk ∧ trim input ≠ ""
          ∧ (e.apply app).state.tasks
            = ⟨now, trim input, false, iso, .undefined, .undefined⟩ :: app.tasks) := by
  cases e with
  | addTask input now iso saveOk =>
    by_cases h : trim input = ""
    · left; simp [Event.apply, addTask, h]
    · right; right; right
      exact ⟨input, now, iso, saveOk, rfl, h, by simp [Event.apply, addTask, h]⟩
  | toggleTaskComplete taskId iso saveOk =>
    simp only [Event.apply, toggleTaskComplete]
    cases hfind : app.tasks.find? (fun t => t.id == taskId) with
    | none => left; rfl
    | some task =>
      right; right; left
      exact ⟨taskId, _, rfl, fun t => ⟨rfl, Or.inl rfl⟩⟩
  | startEdit taskId taskItem =>
    left
    cases taskItem <;> simp only [Event.apply, startEdit, cancelEdit] <;> split <;> rfl
  | finishEdit taskId taskItem iso saveOk =>
    simp only [Event.apply, finishEdit]
    split
    · rename_i task value _ _ _
      by_cases h1 : trim value = ""
      · left; simp [h1]
      · by_cases h2 : trim value = task.text
        · left
          rw [if_neg h1, if_pos h2]
          exact cancelEdit_tasks app
        · right; right; left
          rw [if_neg h1, if_neg h2]
          exact ⟨taskId, _, rfl, fun t => ⟨rfl, Or.inr (validText_trim value h1)⟩⟩
    · left; rfl
  | cancelEdit => left; exact cancelEdit_tasks app
  | deleteTask taskId taskElement saveOk =>
    simp only [Event.apply, deleteTask]
    cases hfind : app.tasks.find? (fun t => t.id == taskId) with
    | none => left; rfl
    | some task =>
      cases taskElement
      · right; left; exact ⟨_, rfl⟩
      · left; rfl
  | deleteTaskTimeout taskId saveOk =>
    right; left; exact ⟨_, rfl⟩
  | clearCompletedTasks saveOk =>
    simp only [Event.apply, clearCompletedTasks]
    split
    · left; rfl
    · right; left; exact ⟨_, rfl⟩
  | setFilter filter => left; rfl

theorem apply_preserves_validText (app : TodoApp) (e : Event)
    (h : ∀ t ∈ app.tasks, validText t.text) :
    ∀ t ∈ (e.apply app).state.tasks, validText t.text := by
  rcases apply_tasks_shape app e with h1 | ⟨p, h1⟩ | ⟨taskId, f, h1, hf⟩ |
    ⟨input, now, iso, saveOk, _, hne, h1⟩
  · rw [h1]; exact h
  · rw [h1]
    intro t ht
    exact h t (List.mem_filter.mp ht).1
  · rw [h1]
    intro u hu
    rcases mem_mutateFound taskId f app.tasks u hu with hmem | ⟨t, ht, rfl⟩
    · exact h u hmem
    · rcases (hf t).2 with htext | hvalid
      · rw [htext]; exact h t ht
      · exact hvalid
  · rw [h1]
    intro t ht
    rcases List.mem_cons.mp ht with rfl | hmem
    · exact validText_trim input hne
    · exact h t hmem

theorem run_preserves_validText (events : List Event) :
    ∀ app : TodoApp, (∀ t ∈ app.tasks, validText t.text) →
      ∀ t ∈ (run app events).tasks, validText t.text := by
  induction events with
  | nil => intro app h; exact h
  | cons e es ih =>
    intro app h
    exact ih (e.apply app).state (apply_preserves_validText app e h)

/-- C9: in every store reached from the empty one by a sequence of calls
(`addTask`, `toggleTaskComplete`, `startEdit`, `finishEdit`, `cancelEdit`,
`deleteTask` and its removal callback, `clearCompletedTasks`, `setFilter`, with
any input texts, clock readings and page contents), every task of `tasks` has
a text that is not empty, not white space only, and equal to its trimmed
form. -/
theorem stored_text_valid (events : List Event) (t : Task)
    (ht : t ∈ (run TodoApp.empty events).tasks) :
    t.text ≠ "" ∧ t.text.data.all isWhiteSpace = false ∧ trim t.text = t.text :=
  run_preserves_validText events TodoApp.empty (by simp [TodoApp.empty]) t ht

theorem stored_text_valid_witness :
    (⟨1, "Buy oat milk", false, "T1", .undefined, .str "T3"⟩ : Task)
        ∈ (run TodoApp.empty [.addTask "  Buy milk " 1 "T1" true, .addTask " \t " 2 "T2" true,
            .startEdit 1 (some ⟨true, some "Buy milk"⟩),
            .finishEdit 1 (some ⟨true, some " Buy oat milk\n"⟩) "T3" true]).tasks
      ∧ ("Buy oat milk" ≠ "" ∧ "Buy oat milk".data.all isWhiteSpace = false
        ∧ trim "Buy oat milk" = "Buy oat milk") :=
  ⟨by decide,
    stored_text_valid [.addTask "  Buy milk " 1 "T1" true, .addTask " \t " 2 "T2" true,
        .startEdit 1 (some ⟨true, some "Buy milk"⟩),
        .finishEdit 1 (some ⟨true, some " Buy oat milk\n"⟩) "T3" true]
      ⟨1, "Buy oat milk", false, "T1", .undefined, .str "T3"⟩ (by decide)⟩

theorem clock_cons_chain (R : Int → Int → Prop) (hle : ∀ a b, R a b → a ≤ b) (e : Event)
    (es : List Event) (b : Int) (h : List.Chain R b (clock (e :: es))) :
    ∃ b', b ≤ b' ∧ List.Chain R b' (clock es) := by
  cases e with
  | addTask input now iso saveOk =>
    simp only [clock, List.chain_cons] at h
    exact ⟨now, hle b now h.1, h.2⟩
  | _ => exact ⟨b, le_refl b, by simpa [clock] using h⟩

theorem run_ids_pairwise (R : Int → Int → Prop) (hR : ∀ a b c, a ≤ b → R b c → R a c)
    (hle : ∀ a b, R a b → a ≤ b) (events : List Event) :
    ∀ (app : TodoApp) (b : Int), (∀ i ∈ app.tasks.map (fun t => t.id), i ≤ b) →
      (app.tasks.map (fun t => t.id)).Pairwise (fun x y => R y x) →
      List.Chain R b (clock events) →
      ((run app events).tasks.map (fun t => t.id)).Pairwise (fun x y => R y x) := by
  induction events with
  | nil => intro app b _ hp _; exact hp
  | cons e es ih =>
    intro app b hb hp hc
    have hsub : ∀ tasks' : List Task,
        (tasks'.map (fun t => t.id)).Sublist (app.tasks.map (fun t => t.id)) →
        (e.apply app).state.tasks = tasks' →
        ((run app (e :: es)).tasks.map (fun t => t.id)).Pairwise (fun x y => R y x) := by
      intro tasks' hs heq
      obtain ⟨b', hbb, hc'⟩ := clock_cons_chain R hle e es b hc
      apply ih (e.apply app).state b'
      · intro i hi
        rw [heq] at hi
        exact le_trans (hb i (hs.subset hi)) hbb
      · rw [heq]
        exact hp.sublist hs
      · exact hc'
    rcases apply_tasks_shape app e with h1 | ⟨p, h1⟩ | ⟨taskId, f, h1, hf⟩ |
      ⟨input, now, iso, saveOk, rfl, hne, h1⟩
    · exact hsub _ (List.Sublist.refl _) h1
    · exact hsub _ ((List.filter_sublist _).map _) h1
    · refine hsub _ ?_ h1
      rw [mutateFound_map_id taskId f (fun t => (hf t).1)]
    · simp only [clock, List.chain_cons] at hc
      apply ih _ now
      · intro i hi
        rw [h1] at hi
        rcases List.mem_cons.mp hi with rfl | hmem
        · exact le_refl _
        · exact le_trans (hb i hmem) (hle b now hc.1)
      · rw [h1]
        simp only [List.map_cons, List.pairwise_cons]
        exact ⟨fun i hi => hR i b now (hb i hi) hc.1, hp⟩
      · exact hc.2

theorem run_empty_ids_pairwise (R : Int → Int → Prop) (hR : ∀ a b c, a ≤ b → R b c → R a c)
    (hle : ∀ a b, R a b → a ≤ b) (hex : ∀ c, ∃ b, R b c) (events : List Event)
    (h : (clock events).Chain' R) :
    ((run TodoApp.empty events).tasks.map (fun t => t.id)).Pairwise (fun x y => R y x) := by
  cases hclock : clock events with
  | nil =>
    apply run_ids_pairwise R hR hle events TodoApp.empty 0 (by simp [TodoApp.empty])
      (by simp [TodoApp.empty])
    rw [hclock]
    exact List.Chain.nil
  | cons c cs =>
    obtain ⟨b, hb⟩ := hex c
    apply run_ids_pairwise R hR hle events TodoApp.empty b (by simp [TodoApp.empty])
      (by simp [TodoApp.empty])
    rw [hclock] at h ⊢
    exact List.Chain.cons hb h

/-- C10, as the code has it: in every store reached from the empty one by a
sequence of calls in which the `Date.now()` readings of the `addTask` calls
never decrease, the ids of `tasks` are non-increasing from index 0 onward
(newest first); when each reading is greater than the one before, the ids
are decreasing and so pairwise distinct. -/
theorem ids_newest_first (events : List Event)
    (hclock : (clock events).Chain' (fun a b => a ≤ b)) :
    ((run TodoApp.empty events).tasks.map (fun t => t.id)).Pairwise (fun x y => x ≥ y)
      ∧ ((clock events).Chain' (fun a b => a < b) →
          ((run TodoApp.empty events).tasks.map (fun t => t.id)).Pairwise (fun x y => x > y)
            ∧ ((run TodoApp.empty events).tasks.map (fun t => t.id)).Nodup) := by
  constructor
  · exact run_empty_ids_pairwise (fun a b => a ≤ b) (fun a b c h1 h2 => le_trans h1 h2)
      (fun a b h => h) (fun c => ⟨c, le_refl c⟩) events hclock
  · intro hstrict
    have hp := run_empty_ids_pairwise (fun a b => a < b)
      (fun a b c h1 h2 => lt_of_le_of_lt h1 h2) (fun a b h => le_of_lt h)
      (fun c => ⟨c - 1, by omega⟩) events hstrict
    exact ⟨hp, hp.imp (fun h => ne_of_gt h)⟩

theorem ids_newest_first_witness :
    (clock [.addTask "Buy milk" 5 "T5" true, .addTask "  " 6 "T6" true,
          .addTask "Walk dog" 6 "T6" true, .deleteTask 5 false true,
          .addTask "Call mum" 9 "T9" true]).Chain' (fun a b => a ≤ b)
      ∧ ((run TodoApp.empty [.addTask "Buy milk" 5 "T5" true, .addTask "  " 6 "T6" true,
          .addTask "Walk dog" 6 "T6" true, .deleteTask 5 false true,
          .addTask "Call mum" 9 "T9" true]).tasks.map (fun t => t.id)).Pairwise
            (fun x y => x ≥ y) :=
  ⟨by simp [clock],
    (ids_newest_first [.addTask "Buy milk" 5 "T5" true, .addTask "  " 6 "T6" true,
      .addTask "Walk dog" 6 "T6" true, .deleteTask 5 false true,
      .addTask "Call mum" 9 "T9" true] (by simp [clock])).1⟩

/-- C10 as stated fails: two `addTask` calls that read the same millisecond
(a clock that does not decrease) leave two tasks with the same id. -/
theorem ids_distinct_counterexample :
    (clock [.addTask "Buy milk" 5 "T5" true, .addTask "Walk dog" 5 "T5" true]).Chain'
        (fun a b => a ≤ b)
      ∧ (run TodoApp.empty [.addTask "Buy milk" 5 "T5" true,
          .addTask "Walk dog" 5 "T5" true]).tasks
        = [⟨5, "Walk dog", false, "T5", .undefined, .undefined⟩,
            ⟨5, "Buy milk", false, "T5", .undefined, .undefined⟩]
      ∧ ¬ ((run TodoApp.empty [.addTask "Buy milk" 5 "T5" true,
          .addTask "Walk dog" 5 "T5" true]).tasks.map (fun t => t.id)).Nodup :=
  ⟨by simp [clock], by decide, by decide⟩

/-! ## `JSON.parse` after `JSON.stringify` -/

namespace JSON

theorem digitChar_toNat (d : Nat) (h : d < 10) : (digitChar d).toNat = 48 + d := by
  interval_cases d <;> rfl

theorem isDigit_digitChar (d : Nat) (h : d < 10) : isDigit (digitChar d) = true := by
  simp [isDigit, digitChar_toNat d h]
  omega

theorem hexVal_hexDigit (d : Nat) (h : d < 16) : hexVal (hexDigit d) = some d := by
  interval_cases d <;> rfl

theorem not_minus_of_isDigit (c : Char) (h : isDigit c = true) : c ≠ '-' := by
  rintro rfl
  simp [isDigit] at h

theorem not_ws_of_isDigit (c : Char) (h : isDigit c = true) : isWs c = false := by
  by_contra hws
  simp only [Bool.not_eq_false, isWs, Bool.or_eq_true, decide_eq_true_eq] at hws
  rcases hws with ((rfl | rfl) | rfl) | rfl <;> simp [isDigit] at h

theorem parseDigits_stop (acc : Nat) (rest : List Char)
    (h : ∀ c r, rest = c :: r → isDigit c = false) : parseDigits acc rest = (acc, rest) := by
  cases rest with
  | nil => rfl
  | cons c r => simp [parseDigits, h c r rfl]

theorem parseDigits_natToCharsAux (fuel : Nat) :
    ∀ (n acc : Nat) (rest : List Char), n < fuel →
      ∃ k, parseDigits acc (natToCharsAux fuel n ++ rest) = parseDigits (acc * 10 ^ k + n) rest := by
  induction fuel with
  | zero => intro n acc rest h; omega
  | succ fuel ih =>
    intro n acc rest h
    by_cases hn : n < 10
    · refine ⟨1, ?_⟩
      simp [natToCharsAux, hn, parseDigits, isDigit_digitChar n hn, digitChar_toNat n hn]
    · have hlt : n / 10 < fuel := by omega
      obtain ⟨k, hk⟩ := ih (n / 10) acc (digitChar (n % 10) :: rest) hlt
      refine ⟨k + 1, ?_⟩
      have hmod : n % 10 < 10 := Nat.mod_lt _ (by decide)
      simp only [natToCharsAux, hn, if_false, List.append_assoc, List.singleton_append]
      rw [hk]
      simp only [parseDigits, isDigit_digitChar (n % 10) hmod, if_true,
        digitChar_toNat (n % 10) hmod]
      congr 1
      rw [pow_succ]
      have := Nat.div_add_mod n 10
      have h48 : 48 + n % 10 - 48 = n % 10 := by omega
      rw [h48]
      nlinarith [this]

theorem natToCharsAux_head (fuel : Nat) :
    ∀ n : Nat, 0 < n → n < fuel →
      ∃ c tl, natToCharsAux fuel n = c :: tl ∧ isDigit c = true ∧ c ≠ '0' := by
  induction fuel with
  | zero => intro n _ h; omega
  | succ fuel ih =>
    intro n hpos h
    by_cases hn : n < 10
    · refine ⟨digitChar n, [], by simp [natToCharsAux, hn], isDigit_digitChar n hn, ?_⟩
      intro h0
      have := digitChar_toNat n hn
      rw [h0] at this
      have h48 : ('0' : Char).toNat = 48 := rfl
      omega
    · obtain ⟨c, tl, hc, hd, h0⟩ := ih (n / 10) (by omega) (by omega)
      exact ⟨c, tl ++ [digitChar (n % 10)], by simp [natToCharsAux, hn, hc], hd, h0⟩

theorem parseNat_natToChars (n : Nat) (rest : List Char)
    (h : ∀ c r, rest = c :: r → isDigit c = false) :
    parseNat (natToChars n ++ rest) = some (n, rest) := by
  by_cases hn : n = 0
  · subst hn
    have h0 : digitChar 0 = '0' := rfl
    simp [natToChars, natToCharsAux, parseNat, h0]
  · obtain ⟨c, tl, hc, hd, h0⟩ := natToCharsAux_head (n + 1) n (by omega) (by omega)
    obtain ⟨k, hk⟩ := parseDigits_natToCharsAux (n + 1) n 0 rest (by omega)
    have hparse : parseNat (natToChars n ++ rest) = some (parseDigits 0 (natToChars n ++ rest)) := by
      simp [natToChars, hc, parseNat, h0, hd, parseDigits]
    rw [hparse]
    unfold natToChars
    rw [hk, parseDigits_stop _ rest h]
    simp

theorem natToChars_cons (n : Nat) :
    ∃ c tl, natToChars n = c :: tl ∧ isDigit c = true := by
  by_cases hn : n = 0
  · subst hn
    exact ⟨'0', [], rfl, rfl⟩
  · obtain ⟨c, tl, hc, hd, _⟩ := natToCharsAux_head (n + 1) n (by omega) (by omega)
    exact ⟨c, tl, hc, hd⟩

theorem terminated_not_digit (rest : List Char) (h : terminated rest = true) :
    ∀ c r, rest = c :: r → isDigit c = false := by
  intro c r hr
  subst hr
  simp only [terminated, Bool.or_eq_true, decide_eq_true_eq] at h
  rcases h with (rfl | rfl) | rfl <;> rfl

theorem terminated_skipWs (rest : List Char) (h : terminated rest = true) :
    skipWs rest = rest := by
  cases rest with
  | nil => rfl
  | cons c r =>
    simp only [terminated, Bool.or_eq_true, decide_eq_true_eq] at h
    rcases h with (rfl | rfl) | rfl <;> rfl

theorem parseNumber_finish (n : Int) (rest : List Char) (h : terminated rest = true) :
    (match (some (n, rest) : Option (Int × List Char)) with
      | some (n, d :: r) => if d = '.' || d = 'e' || d = 'E' then none else some (n, d :: r)
      | other => other) = some (n, rest) := by
  cases rest with
  | nil => rfl
  | cons c r =>
    simp only [terminated, Bool.or_eq_true, decide_eq_true_eq] at h
    rcases h with (rfl | rfl) | rfl <;> rfl

theorem parseNumber_numberToChars (n : Int) (rest : List Char) (h : terminated rest = true) :
    parseNumber (numberToChars n ++ rest) = some (n, rest) := by
  have hd := terminated_not_digit rest h
  unfold numberToChars
  by_cases hneg : n < 0
  · have hval : -((n.natAbs : Nat) : Int) = n := by omega
    simp only [hneg, if_true, List.cons_append, parseNumber, parseNat_natToChars n.natAbs rest hd,
      hval]
    exact parseNumber_finish n rest h
  · obtain ⟨c, tl, hc, hdig⟩ := natToChars_cons n.toNat
    have hparse := parseNat_natToChars n.toNat rest hd
    have hval : ((n.toNat : Nat) : Int) = n := by omega
    rw [hc] at hparse
    simp only [hneg, if_false, hc, List.cons_append, parseNumber,
      not_minus_of_isDigit c hdig] at hparse ⊢
    rw [hparse]
    simp only [hval]
    exact parseNumber_finish n rest h

theorem escapeChar_step (c : Char) (acc rest : List Char) :
    parseStringAux .plain acc (escapeChar c ++ rest) = parseStringAux .plain (c :: acc) rest := by
  by_cases h1 : c = '"'
  · subst h1; rfl
  by_cases h2 : c = '\\'
  · subst h2; rfl
  by_cases h3 : c = '\x08'
  · subst h3; rfl
  by_cases h4 : c = '\x0c'
  · subst h4; rfl
  by_cases h5 : c = '\n'
  · subst h5; rfl
  by_cases h6 : c = '\r'
  · subst h6; rfl
  by_cases h7 : c = '\t'
  · subst h7; rfl
  by_cases h8 : c.toNat < 32
  · have ha : c.toNat / 16 < 16 := by omega
    have hb : c.toNat % 16 < 16 := Nat.mod_lt _ (by decide)
    have h0 : hexVal '0' = some 0 := rfl
    have hcode : c.toNat / 16 * 16 + c.toNat % 16 = c.toNat := by omega
    have hnot : ¬ (55296 ≤ c.toNat ∧ c.toNat ≤ 57343) := by omega
    simp only [escapeChar, h1, h2, h3, h4, h5, h6, h7, h8, if_true, if_false, List.cons_append,
      List.nil_append]
    rw [parseStringAux, if_neg (by decide), if_pos rfl, parseStringAux, if_pos rfl]
    simp [parseStringAux, h0, hexVal_hexDigit _ ha, hexVal_hexDigit _ hb, hcode, hnot]
  · simp only [escapeChar, h1, h2, h3, h4, h5, h6, h7, h8, if_false, List.cons_append,
      List.nil_append]
    rw [parseStringAux, if_neg h1, if_neg h2, if_neg h8]

theorem parseStringAux_escaped (s : List Char) :
    ∀ (acc rest : List Char),
      parseStringAux .plain acc (s.flatMap escapeChar ++ '"' :: rest)
        = some (acc.reverse ++ s, rest) := by
  induction s with
  | nil => intro acc rest; simp [parseStringAux]
  | cons c s ih =>
    intro acc rest
    rw [List.flatMap_cons, List.append_assoc, escapeChar_step, ih]
    simp

theorem parseString_escaped (s : List Char) (rest : List Char) :
    parseString (s.flatMap escapeChar ++ '"' :: rest) = some (s, rest) := by
  simp [parseString, parseStringAux_escaped]

theorem skipWs_cons (c : Char) (tl : List Char) (h : isWs c = false) :
    skipWs (c :: tl) = c :: tl := by
  simp [skipWs, List.dropWhile_cons, h]

theorem numberToChars_cons (n : Int) :
    ∃ c tl, numberToChars n = c :: tl ∧ (c = '-' ∨ isDigit c = true) := by
  unfold numberToChars
  by_cases hneg : n < 0
  · exact ⟨'-', natToChars n.natAbs, by simp [hneg], Or.inl rfl⟩
  · obtain ⟨c, tl, hc, hd⟩ := natToChars_cons n.toNat
    exact ⟨c, tl, by simp [hneg, hc], Or.inr hd⟩

theorem parseValue_number (fuel : Nat) (n : Int) (rest : List Char)
    (h : terminated rest = true) :
    parseValue (fuel + 1) (numberToChars n ++ rest) = some (Json.num n, rest) := by
  have hparse := parseNumber_numberToChars n rest h
  obtain ⟨c, tl, hc, hstart⟩ := numberToChars_cons n
  rw [hc] at hparse ⊢
  have hws : isWs c = false := by
    rcases hstart with rfl | hd
    · rfl
    · exact not_ws_of_isDigit c hd
  have hnum : (c = '-' || isDigit c) = true := by
    rcases hstart with rfl | hd
    · rfl
    · simp [hd]
  rw [List.cons_append] at hparse ⊢
  rw [parseValue, skipWs_cons c _ hws]
  simp only [hnum, if_true]
  rw [hparse]

theorem parseValue_string (fuel : Nat) (s : String) (rest : List Char) :
    parseValue (fuel + 1) (quote s.data ++ rest) = some (Json.str s, rest) := by
  have hparse := parseString_escaped s.data rest
  have hq : quote s.data ++ rest = '"' :: (s.data.flatMap escapeChar ++ '"' :: rest) := by
    simp [quote]
  rw [hq, parseValue, skipWs_cons _ _ (by rfl)]
  simp only []
  rw [if_pos trivial, hparse, if_neg (by decide)]

theorem parseValue_null (fuel : Nat) (rest : List Char) :
    parseValue (fuel + 1) ('n' :: 'u' :: 'l' :: 'l' :: rest) = some (Json.null, rest) := by
  rw [parseValue, skipWs_cons _ _ (by rfl)]
  rfl

theorem parseValue_true (fuel : Nat) (rest : List Char) :
    parseValue (fuel + 1) ('t' :: 'r' :: 'u' :: 'e' :: rest) = some (Json.bool true, rest) := by
  rw [parseValue, skipWs_cons _ _ (by rfl)]
  rfl

theorem parseValue_false (fuel : Nat) (rest : List Char) :
    parseValue (fuel + 1) ('f' :: 'a' :: 'l' :: 's' :: 'e' :: rest)
      = some (Json.bool false, rest) := by
  rw [parseValue, skipWs_cons _ _ (by rfl)]
  rfl

theorem stringifyChars_head (v : Json) :
    ∃ c tl, stringifyChars v = c :: tl ∧ isWs c = false ∧ c ≠ ']' ∧ c ≠ '}' := by
  cases v with
  | null => exact ⟨'n', ['u', 'l', 'l'], by rw [stringifyChars], rfl, by decide, by decide⟩
  | bool b =>
    cases b
    · exact ⟨'f', ['a', 'l', 's', 'e'], by simp [stringifyChars], rfl, by decide, by decide⟩
    · exact ⟨'t', ['r', 'u', 'e'], by simp [stringifyChars], rfl, by decide, by decide⟩
  | num n =>
    obtain ⟨c, tl, hc, hstart⟩ := numberToChars_cons n
    refine ⟨c, tl, by rw [stringifyChars, hc], ?_, ?_, ?_⟩
    · rcases hstart with rfl | hd
      · rfl
      · exact not_ws_of_isDigit c hd
    · rcases hstart with rfl | hd
      · decide
      · rintro rfl; simp [isDigit] at hd
    · rcases hstart with rfl | hd
      · decide
      · rintro rfl; simp [isDigit] at hd
  | str s =>
    exact ⟨'"', s.data.flatMap escapeChar ++ ['"'], by simp [stringifyChars, quote], rfl,
      by decide, by decide⟩
  | arr elems =>
    exact ⟨'[', stringifyElems elems ++ [']'], by simp [stringifyChars], rfl, by decide,
      by decide⟩
  | obj members =>
    exact ⟨'{', stringifyMembers members ++ ['}'], by simp [stringifyChars], rfl, by decide,
      by decide⟩

theorem parseValue_arr_empty (fuel : Nat) (rest : List Char) :
    parseValue (fuel + 1) ('[' :: ']' :: rest) = some (Json.arr [], rest) := by
  rw [parseValue, skipWs_cons _ _ (by rfl)]
  rfl

theorem parseValue_obj_empty (fuel : Nat) (rest : List Char) :
    parseValue (fuel + 1) ('{' :: '}' :: rest) = some (Json.obj [], rest) := by
  rw [parseValue, skipWs_cons _ _ (by rfl)]
  rfl

theorem parseValue_arr (fuel : Nat) (c1 : Char) (rest1 : List Char) (hws : isWs c1 = false)
    (hc : c1 ≠ ']') :
    parseValue (fuel + 1) ('[' :: c1 :: rest1)
      = match parseElements (parseValue fuel) fuel (c1 :: rest1) with
        | some (vs, r) => some (Json.arr vs, r)
        | none => none := by
  have hd1 : isDigit '[' = false := rfl
  have hd2 : isDigit '{' = false := rfl
  rw [parseValue, skipWs_cons _ _ (by rfl)]
  simp [skipWs_cons _ _ hws, hc, hd1, hd2]

theorem parseValue_obj (fuel : Nat) (c1 : Char) (rest1 : List Char) (hws : isWs c1 = false)
    (hc : c1 ≠ '}') :
    parseValue (fuel + 1) ('{' :: c1 :: rest1)
      = match parseMembers (parseValue fuel) fuel (c1 :: rest1) with
        | some (ms, r) => some (Json.obj ms, r)
        | none => none := by
  have hd1 : isDigit '[' = false := rfl
  have hd2 : isDigit '{' = false := rfl
  rw [parseValue, skipWs_cons _ _ (by rfl)]
  simp [skipWs_cons _ _ hws, hc, hd1, hd2]

theorem parseElements_more (pv : List Char → Option (Json × List Char)) (fuel : Nat)
    (cs rest1 : List Char) (v : Json) (h : pv cs = some (v, ',' :: rest1)) :
    parseElements pv (fuel + 1) cs
      = match parseElements pv fuel rest1 with
        | some (vs, r) => some (v :: vs, r)
        | none => none := by
  have hs : skipWs (',' :: rest1) = ',' :: rest1 := skipWs_cons _ _ (by rfl)
  rw [parseElements, h]
  simp [hs]

theorem parseElements_last (pv : List Char → Option (Json × List Char)) (fuel : Nat)
    (cs rest1 : List Char) (v : Json) (h : pv cs = some (v, ']' :: rest1)) :
    parseElements pv (fuel + 1) cs = some ([v], rest1) := by
  have hs : skipWs (']' :: rest1) = ']' :: rest1 := skipWs_cons _ _ (by rfl)
  rw [parseElements, h]
  simp [hs]

theorem parseMembers_key (pv : List Char → Option (Json × List Char)) (fuel : Nat)
    (k : String) (cs : List Char) :
    parseMembers pv (fuel + 1) (quote k.data ++ ':' :: cs)
      = match pv cs with
        | none => none
        | some (v, rest3) =>
          match skipWs rest3 with
          | [] => none
          | c :: rest4 =>
            if c = ',' then
              match parseMembers pv fuel rest4 with
              | some (ms, r) => some ((k, v) :: ms, r)
              | none => none
            else if c = '}' then some ([(k, v)], rest4)
            else none := by
  have hparse := parseString_escaped k.data (':' :: cs)
  have hq : quote k.data ++ ':' :: cs = '"' :: (k.data.flatMap escapeChar ++ '"' :: ':' :: cs) := by
    simp [quote]
  have hs : skipWs (':' :: cs) = ':' :: cs := skipWs_cons _ _ (by rfl)
  rw [hq, parseMembers, skipWs_cons _ _ (by rfl)]
  simp only [if_true, hparse, hs]

theorem parseMembers_more (pv : List Char → Option (Json × List Char)) (fuel : Nat)
    (k : String) (cs rest1 : List Char) (v : Json) (h : pv cs = some (v, ',' :: rest1)) :
    parseMembers pv (fuel + 1) (quote k.data ++ ':' :: cs)
      = match parseMembers pv fuel rest1 with
        | some (ms, r) => some ((k, v) :: ms, r)
        | none => none := by
  have hs : skipWs (',' :: rest1) = ',' :: rest1 := skipWs_cons _ _ (by rfl)
  rw [parseMembers_key, h]
  simp [hs]

theorem parseMembers_last (pv : List Char → Option (Json × List Char)) (fuel : Nat)
    (k : String) (cs rest1 : List Char) (v : Json) (h : pv cs = some (v, '}' :: rest1)) :
    parseMembers pv (fuel + 1) (quote k.data ++ ':' :: cs) = some ([(k, v)], rest1) := by
  have hs : skipWs ('}' :: rest1) = '}' :: rest1 := skipWs_cons _ _ (by rfl)
  rw [parseMembers_key, h]
  simp [hs]

theorem terminated_cons (c : Char) (rest : List Char)
    (h : c = ',' ∨ c = ']' ∨ c = '}') : terminated (c :: rest) = true := by
  rcases h with rfl | rfl | rfl <;> rfl

mutual
/-- Reading the text of a value gives the value back and leaves the text after it. -/
theorem parseValue_stringifyChars : (v : Json) → ∀ (fuel : Nat) (rest : List Char),
    (stringifyChars v ++ rest).length ≤ fuel → terminated rest = true →
    parseValue fuel (stringifyChars v ++ rest) = some (v, rest)
  | .null, fuel, rest, hlen, _ => by
    rw [stringifyChars] at hlen ⊢
    cases fuel with
    | zero => simp at hlen
    | succ fuel => exact parseValue_null fuel rest
  | .bool true, fuel, rest, hlen, _ => by
    simp only [stringifyChars, if_true] at hlen ⊢
    cases fuel with
    | zero => simp at hlen
    | succ fuel => exact parseValue_true fuel rest
  | .bool false, fuel, rest, hlen, _ => by
    simp only [stringifyChars, Bool.false_eq_true, if_false] at hlen ⊢
    cases fuel with
    | zero => simp at hlen
    | succ fuel => exact parseValue_false fuel rest
  | .num n, fuel, rest, hlen, hterm => by
    rw [stringifyChars] at hlen ⊢
    cases fuel with
    | zero =>
      obtain ⟨c, tl, hc, _⟩ := numberToChars_cons n
      simp [hc] at hlen
    | succ fuel => exact parseValue_number fuel n rest hterm
  | .str s, fuel, rest, hlen, _ => by
    rw [stringifyChars] at hlen ⊢
    cases fuel with
    | zero => simp [quote] at hlen
    | succ fuel => exact parseValue_string fuel s rest
  | .arr [], fuel, rest, hlen, _ => by
    simp only [stringifyChars, stringifyElems] at hlen ⊢
    cases fuel with
    | zero => simp at hlen
    | succ fuel => exact parseValue_arr_empty fuel rest
  | .arr (v :: vs), fuel, rest, hlen, hterm => by
    have hnorm : stringifyChars (.arr (v :: vs)) ++ rest
        = '[' :: (stringifyElems (v :: vs) ++ ']' :: rest) := by
      simp [stringifyChars]
    rw [hnorm] at hlen ⊢
    cases fuel with
    | zero => simp at hlen
    | succ fuel =>
      have hlen1 : (stringifyElems (v :: vs) ++ ']' :: rest).length ≤ fuel := by
        simpa using hlen
      have ih := parseElements_stringifyElems (v :: vs) (by simp) fuel fuel rest hlen1 hlen1
        hterm
      obtain ⟨c, tl, hc, hws, hne, _⟩ := stringifyChars_head v
      have hcons : stringifyElems (v :: vs) ++ ']' :: rest
          = c :: (tl ++ (if vs.isEmpty then [] else ',' :: stringifyElems vs) ++ ']' :: rest) := by
        simp [stringifyElems, hc]
      rw [hcons] at ih ⊢
      rw [parseValue_arr fuel c _ hws hne, ih]
  | .obj [], fuel, rest, hlen, _ => by
    simp only [stringifyChars, stringifyMembers] at hlen ⊢
    cases fuel with
    | zero => simp at hlen
    | succ fuel => exact parseValue_obj_empty fuel rest
  | .obj ((k, v) :: ms), fuel, rest, hlen, hterm => by
    have hnorm : stringifyChars (.obj ((k, v) :: ms)) ++ rest
        = '{' :: (stringifyMembers ((k, v) :: ms) ++ '}' :: rest) := by
      simp [stringifyChars]
    rw [hnorm] at hlen ⊢
    cases fuel with
    | zero => simp at hlen
    | succ fuel =>
      have hlen1 : (stringifyMembers ((k, v) :: ms) ++ '}' :: rest).length ≤ fuel := by
        simpa using hlen
      have ih := parseMembers_stringifyMembers ((k, v) :: ms) (by simp) fuel fuel rest hlen1
        hlen1 hterm
      have hcons : stringifyMembers ((k, v) :: ms) ++ '}' :: rest
          = '"' :: (k.data.flatMap escapeChar ++ '"' :: ':' :: (stringifyChars v
              ++ (if ms.isEmpty then [] else ',' :: stringifyMembers ms) ++ '}' :: rest)) := by
        simp [stringifyMembers, quote]
      rw [hcons] at ih ⊢
      rw [parseValue_obj fuel '"' _ (by rfl) (by decide), ih]
/-- Reading the text of the elements of an array gives them back. -/
theorem parseElements_stringifyElems : (vs : List Json) → vs ≠ [] →
    ∀ (fuel fuel1 : Nat) (rest : List Char),
    (stringifyElems vs ++ ']' :: rest).length ≤ fuel →
    (stringifyElems vs ++ ']' :: rest).length ≤ fuel1 → terminated rest = true →
    parseElements (parseValue fuel) fuel1 (stringifyElems vs ++ ']' :: rest) = some (vs, rest)
  | [], h, _, _, _, _, _, _ => absurd rfl h
  | [v], _, fuel, fuel1, rest, hlen, hlen1, _ => by
    have hnorm : stringifyElems [v] ++ ']' :: rest = stringifyChars v ++ ']' :: rest := by
      simp [stringifyElems]
    rw [hnorm] at hlen hlen1 ⊢
    cases fuel1 with
    | zero => simp at hlen1
    | succ fuel1 =>
      have ih := parseValue_stringifyChars v fuel (']' :: rest) hlen
        (terminated_cons _ _ (Or.inr (Or.inl rfl)))
      exact parseElements_last _ fuel1 _ rest v ih
  | v :: w :: ws, _, fuel, fuel1, rest, hlen, hlen1, hterm => by
    have hnorm : stringifyElems (v :: w :: ws) ++ ']' :: rest
        = stringifyChars v ++ ',' :: (stringifyElems (w :: ws) ++ ']' :: rest) := by
      simp [stringifyElems]
    rw [hnorm] at hlen hlen1 ⊢
    cases fuel1 with
    | zero => simp at hlen1
    | succ fuel1 =>
      have ih := parseValue_stringifyChars v fuel (',' :: (stringifyElems (w :: ws) ++ ']' :: rest))
        hlen (terminated_cons _ _ (Or.inl rfl))
      have hl : (stringifyElems (w :: ws) ++ ']' :: rest).length ≤ fuel := by
        simp only [List.length_append, List.length_cons] at hlen ⊢
        omega
      have hl1 : (stringifyElems (w :: ws) ++ ']' :: rest).length ≤ fuel1 := by
        simp only [List.length_append, List.length_cons] at hlen1 ⊢
        omega
      rw [parseElements_more _ fuel1 _ _ v ih,
        parseElements_stringifyElems (w :: ws) (by simp) fuel fuel1 rest hl hl1 hterm]
/-- Reading the text of the members of an object gives them back. -/
theorem parseMembers_stringifyMembers : (ms : List (String × Json)) → ms ≠ [] →
    ∀ (fuel fuel1 : Nat) (rest : List Char),
    (stringifyMembers ms ++ '}' :: rest).length ≤ fuel →
    (stringifyMembers ms ++ '}' :: rest).length ≤ fuel1 → terminated rest = true →
    parseMembers (parseValue fuel) fuel1 (stringifyMembers ms ++ '}' :: rest) = some (ms, rest)
  | [], h, _, _, _, _, _, _ => absurd rfl h
  | [(k, v)], _, fuel, fuel1, rest, hlen, hlen1, _ => by
    have hnorm : stringifyMembers [(k, v)] ++ '}' :: rest
        = quote k.data ++ ':' :: (stringifyChars v ++ '}' :: rest) := by
      simp [stringifyMembers]
    rw [hnorm] at hlen hlen1 ⊢
    cases fuel1 with
    | zero => simp [quote] at hlen1
    | succ fuel1 =>
      have hl : (stringifyChars v ++ '}' :: rest).length ≤ fuel := by
        simp only [List.length_append, List.length_cons] at hlen ⊢
        omega
      have ih := parseValue_stringifyChars v fuel ('}' :: rest) hl
        (terminated_cons _ _ (Or.inr (Or.inr rfl)))
      exact parseMembers_last _ fuel1 k _ rest v ih
  | (k, v) :: m :: ms, _, fuel, fuel1, rest, hlen, hlen1, hterm => by
    have hnorm : stringifyMembers ((k, v) :: m :: ms) ++ '}' :: rest
        = quote k.data ++ ':' :: (stringifyChars v
            ++ ',' :: (stringifyMembers (m :: ms) ++ '}' :: rest)) := by
      simp [stringifyMembers]
    rw [hnorm] at hlen hlen1 ⊢
    cases fuel1 with
    | zero => simp [quote] at hlen1
    | succ fuel1 =>
      have hlv : (stringifyChars v ++ ',' :: (stringifyMembers (m :: ms) ++ '}' :: rest)).length
          ≤ fuel := by
        simp only [List.length_append, List.length_cons] at hlen ⊢
        omega
      have ih := parseValue_stringifyChars v fuel
        (',' :: (stringifyMembers (m :: ms) ++ '}' :: rest)) hlv
        (terminated_cons _ _ (Or.inl rfl))
      have hl : (stringifyMembers (m :: ms) ++ '}' :: rest).length ≤ fuel := by
        simp only [List.length_append, List.length_cons] at hlen ⊢
        omega
      have hl1 : (stringifyMembers (m :: ms) ++ '}' :: rest).length ≤ fuel1 := by
        simp only [List.length_append, List.length_cons] at hlen1 ⊢
        omega
      rw [parseMembers_more _ fuel1 k _ _ v ih,
        parseMembers_stringifyMembers (m :: ms) (by simp) fuel fuel1 rest hl hl1 hterm]
end

theorem parse_stringify (v : Json) : parse (stringify v) = some v := by
  have h := parseValue_stringifyChars v ((stringifyChars v).length + 1) [] (by simp) rfl
  simp only [List.append_nil] at h
  simp [parse, stringify, h, skipWs]

end JSON

/-! ## `saveTasks` then `loadTasks` -/

theorem Task.ofJson_toJson (editedFirst : Bool) (t : Task) :
    Task.ofJson (t.toJson editedFirst) = some t := by
  cases t with
  | mk id text completed createdAt completedAt updatedAt =>
    cases completedAt <;> cases updatedAt <;> cases editedFirst <;> rfl

theorem tasksOfElems_map_toJson (editedFirst : Task → Bool) (tasks : List Task) :
    tasksOfElems (tasks.map (fun t => t.toJson (editedFirst t))) = some tasks := by
  induction tasks with
  | nil => rfl
  | cons t tasks ih => simp [tasksOfElems, Task.ofJson_toJson, ih]

theorem tasksOfJson_tasksToJson (editedFirst : Task → Bool) (tasks : List Task) :
    tasksOfJson (tasksToJson editedFirst tasks) = some tasks := by
  simp [tasksOfJson, tasksToJson, tasksOfElems_map_toJson]

theorem stringify_tasksToJson_ne_empty (editedFirst : Task → Bool) (tasks : List Task) :
    JSON.stringify (tasksToJson editedFirst tasks) ≠ "" := by
  intro h
  have hdata := congrArg String.data h
  simp [JSON.stringify, tasksToJson, JSON.stringifyChars] at hdata

set_option maxRecDepth 100000 in
/-- The text `saveTasks` stores for two tasks, one completed and one edited
after a toggle back, is the text `JSON.stringify` gives in a browser. -/
theorem stringify_tasks_example :
    JSON.stringify (tasksToJson (fun _ => false)
        [⟨1700000000001, "Walk \"Rex\"\n", false, "2023-11-14T22:13:20.001Z", .null, .str "T3"⟩,
          ⟨1700000000000, "Buy milk", true, "2023-11-14T22:13:20.000Z", .str "T2", .undefined⟩])
      = "[\x7b\"id\":1700000000001,\"text\":\"Walk \\\"Rex\\\"\\n\",\"completed\":false,\"createdAt\":\"2023-11-14T22:13:20.001Z\",\"completedAt\":null,\"updatedAt\":\"T3\"\x7d,\x7b\"id\":1700000000000,\"text\":\"Buy milk\",\"completed\":true,\"createdAt\":\"2023-11-14T22:13:20.000Z\",\"completedAt\":\"T2\"\x7d]" := by
  decide

/-- C11: for every `tasks` sequence of the store, `saveTasks` with a
successful `localStorage.setItem` (the JSON text of `tasks` under the storage
key, whatever the storage held before and in whichever order each task got
its `completedAt` and `updatedAt`) followed by `loadTasks` into a fresh store
leaves that store with an equal sequence of tasks, in the same order and with
the same `id`, `text`, `completed`, `createdAt`, `completedAt` and `updatedAt`,
and shows no error. -/
theorem saveTasks_loadTasks_roundtrip (app : TodoApp) (editedFirst : Task → Bool)
    (storage : Storage) :
    TodoApp.empty.loadTasks (app.saveTasksStorage editedFirst storage true)
        = some ⟨⟨app.tasks, "all", none⟩, [], [], false⟩
      ∧ ∀ fresh : TodoApp, fresh.loadTasks (app.saveTasksStorage editedFirst storage true)
        = some ⟨{ fresh with tasks := app.tasks }, [], [], false⟩ := by
  have hload : ∀ fresh : TodoApp,
      fresh.loadTasks (app.saveTasksStorage editedFirst storage true)
        = some ⟨{ fresh with tasks := app.tasks }, [], [], false⟩ := by
    intro fresh
    simp only [loadTasks, saveTasksStorage, if_true, Storage.getItem, Storage.setItem,
      if_neg (stringify_tasksToJson_ne_empty editedFirst app.tasks), JSON.parse_stringify,
      tasksOfJson_tasksToJson]
  exact ⟨hload TodoApp.empty, hload⟩

end Todo
